import Mathlib

/-!
Formal model of the core of `ryzenadj-control`: the option catalog
(`core/options.py`), the command builder (`core/executor.py`), the
telemetry parser (`core/monitor.py`), the profile store
(`core/profiles.py`) and the read-only-profile guard of the UI layer
(`ui/main_window.py`).  Python dictionaries are modelled as association
lists, Python/JSON values as the inductive `PyVal`, the profile file on
disk as the inductive `Disk`, and Python exceptions as `Except` /
`Option` results.
-/

/-- Python (and JSON) values as they occur in profile value maps and in
the parsed profile document: `None`, booleans, integers, strings, lists
and dictionaries (with string keys, as produced by `json.loads`). -/
inductive PyVal where
  | none
  | bool (b : Bool)
  | int (n : Int)
  | str (s : String)
  | list (xs : List PyVal)
  | dict (fields : List (String × PyVal))

/-- ASCII whitespace, the characters matched by Python `str.strip()`
and by the regex class `\s`. -/
def isWS (c : Char) : Bool :=
  c == ' ' || c == '\t' || c == '\n' || c == '\r' || c == '\x0b' || c == '\x0c'

/-- Python `str.strip()`: drop leading and trailing whitespace. -/
def pyStrip (s : String) : String :=
  String.mk (((s.toList.dropWhile isWS).reverse.dropWhile isWS).reverse)

/-- Digit-string validity after the optional sign for Python `int(str)`:
a digit followed by digits with single underscores strictly between
digits. -/
def vudRest : List Char → Bool
  | [] => true
  | '_' :: c :: rest => c.isDigit && vudRest rest
  | c :: rest => c.isDigit && vudRest rest

/-- Numeric value of a digit list (underscores skipped). -/
def digitsToNat (cs : List Char) : Nat :=
  (cs.filter (fun c => c != '_')).foldl (fun n c => n * 10 + (c.toNat - 48)) 0

/-- Python `int(s)` on a string: strip whitespace, optional sign, then
digits with optional single underscores; `Option.none` models
`ValueError`. -/
def pyParseInt (s : String) : Option Int :=
  match (pyStrip s).toList with
  | [] => Option.none
  | '-' :: c :: rest =>
      if c.isDigit && vudRest rest then Option.some (-(digitsToNat (c :: rest) : Int))
      else Option.none
  | '+' :: c :: rest =>
      if c.isDigit && vudRest rest then Option.some ((digitsToNat (c :: rest) : Int))
      else Option.none
  | c :: rest =>
      if c.isDigit && vudRest rest then Option.some ((digitsToNat (c :: rest) : Int))
      else Option.none

/-- Python truthiness `bool(v)`. -/
def pyTruthy : PyVal → Bool
  | PyVal.none => false
  | PyVal.bool b => b
  | PyVal.int n => n != 0
  | PyVal.str s => s != ""
  | PyVal.list xs => !xs.isEmpty
  | PyVal.dict fields => !fields.isEmpty

/-- Python `int(v)` coercion; `Option.none` models `TypeError` /
`ValueError`. -/
def pyInt : PyVal → Option Int
  | PyVal.none => Option.none
  | PyVal.bool b => Option.some (if b then 1 else 0)
  | PyVal.int n => Option.some n
  | PyVal.str s => pyParseInt s
  | PyVal.list _ => Option.none
  | PyVal.dict _ => Option.none

/-- Dictionary lookup on an association list (Python `d.get(k)` /
`d[k]`; keys of real Python dicts are unique, so first match wins). -/
def alookup (m : List (String × α)) (k : String) : Option α :=
  (m.find? (fun p => p.1 == k)).map (fun p => p.2)

/-- Python dict assignment `d[k] = v`: overwrite in place if the key is
present, else append at the end (insertion order is preserved). -/
def assocSet : List (String × α) → String → α → List (String × α)
  | [], k, v => [(k, v)]
  | p :: rest, k, v => if p.1 == k then (k, v) :: rest else p :: assocSet rest k v

/-- Numeric option metadata (`OptionSpec` in `core/options.py`). -/
structure OptionSpec where
  key : String
  cli : String
  label : String
  category : String
  minimum : Int
  maximum : Int
  default : Int
  tooltip : String
  ui_scale : Int
  ui_suffix : String
deriving DecidableEq

/-- Boolean option metadata (the `BOOLEAN_OPTIONS` dicts in
`core/options.py`). -/
structure BoolOption where
  key : String
  cli : String
  label : String
  category : String
  tooltip : String
deriving DecidableEq

/-- The numeric option catalog, in source order. -/
def NUMERIC_OPTIONS : List OptionSpec :=
  [⟨"stapm_limit", "--stapm-limit", "STAPM Limit", "Power", 0, 200000, 25000,
      "Sustained platform power limit in W.", 1000, " W"⟩,
   ⟨"fast_limit", "--fast-limit", "PPT Fast Limit", "Power", 0, 200000, 35000,
      "Short boost power limit in W.", 1000, " W"⟩,
   ⟨"slow_limit", "--slow-limit", "PPT Slow Limit", "Power", 0, 200000, 30000,
      "Long-duration package power limit in W.", 1000, " W"⟩,
   ⟨"slow_time", "--slow-time", "Slow Time", "Power", 0, 512, 64,
      "Time window for slow limit.", 1, ""⟩,
   ⟨"stapm_time", "--stapm-time", "STAPM Time", "Power", 0, 512, 64,
      "Time window for STAPM behavior.", 1, ""⟩,
   ⟨"tctl_temp", "--tctl-temp", "Tctl Temp", "Power", 0, 105, 90,
      "Thermal control target temperature in C.", 1, ""⟩,
   ⟨"apu_slow_limit", "--apu-slow-limit", "APU Slow Limit", "Power", 0, 200000, 30000,
      "APU-specific slow power limit in W.", 1000, " W"⟩,
   ⟨"skin_temp_limit", "--skin-temp-limit", "Skin Temp Limit", "Power", 0, 100, 60,
      "Skin temperature control threshold.", 1, ""⟩,
   ⟨"apu_skin_temp", "--apu-skin-temp", "APU Skin Temp", "Power", 0, 100, 55,
      "APU skin temperature target.", 1, ""⟩,
   ⟨"dgpu_skin_temp", "--dgpu-skin-temp", "dGPU Skin Temp", "Power", 0, 100, 60,
      "dGPU skin temperature target.", 1, ""⟩,
   ⟨"vrm_current", "--vrm-current", "VRM Current", "Current", 0, 400, 100,
      "CPU VRM current limit in A.", 1, ""⟩,
   ⟨"vrmsoc_current", "--vrmsoc-current", "VRMSoC Current", "Current", 0, 400, 80,
      "SoC VRM current limit in A.", 1, ""⟩,
   ⟨"vrmmax_current", "--vrmmax-current", "VRM Max Current", "Current", 0, 500, 130,
      "Maximum CPU VRM peak current in A.", 1, ""⟩,
   ⟨"vrmsocmax_current", "--vrmsocmax-current", "VRMSoC Max Current", "Current", 0, 500, 110,
      "Maximum SoC VRM peak current in A.", 1, ""⟩,
   ⟨"psi0_current", "--psi0-current", "PSI0 Current", "Current", 0, 500, 80,
      "PSI0 current threshold for CPU rails.", 1, ""⟩,
   ⟨"psi0soc_current", "--psi0soc-current", "PSI0SoC Current", "Current", 0, 500, 60,
      "PSI0 current threshold for SoC rails.", 1, ""⟩,
   ⟨"max_socclk_frequency", "--max-socclk-frequency", "Max SoC Clock", "Clocks", 0, 4000, 1800,
      "Maximum SoC clock frequency in MHz.", 1, ""⟩,
   ⟨"min_socclk_frequency", "--min-socclk-frequency", "Min SoC Clock", "Clocks", 0, 4000, 400,
      "Minimum SoC clock frequency in MHz.", 1, ""⟩,
   ⟨"max_fclk_frequency", "--max-fclk-frequency", "Max FCLK", "Clocks", 0, 4000, 1800,
      "Maximum fabric clock in MHz.", 1, ""⟩,
   ⟨"min_fclk_frequency", "--min-fclk-frequency", "Min FCLK", "Clocks", 0, 4000, 400,
      "Minimum fabric clock in MHz.", 1, ""⟩,
   ⟨"max_vcn", "--max-vcn", "Max VCN", "Clocks", 0, 4000, 1200,
      "Maximum VCN clock in MHz.", 1, ""⟩,
   ⟨"min_vcn", "--min-vcn", "Min VCN", "Clocks", 0, 4000, 300,
      "Minimum VCN clock in MHz.", 1, ""⟩,
   ⟨"max_lclk", "--max-lclk", "Max LCLK", "Clocks", 0, 4000, 1200,
      "Maximum LCLK in MHz.", 1, ""⟩,
   ⟨"min_lclk", "--min-lclk", "Min LCLK", "Clocks", 0, 4000, 300,
      "Minimum LCLK in MHz.", 1, ""⟩,
   ⟨"max_gfxclk", "--max-gfxclk", "Max GFX Clock", "Clocks", 0, 4000, 2200,
      "Maximum graphics clock in MHz.", 1, ""⟩,
   ⟨"min_gfxclk", "--min-gfxclk", "Min GFX Clock", "Clocks", 0, 4000, 400,
      "Minimum graphics clock in MHz.", 1, ""⟩,
   ⟨"prochot_deassertion_ramp", "--prochot-deassertion-ramp", "Prochot Deassertion Ramp",
      "Advanced", 0, 255, 50, "Ramp behavior after PROCHOT release.", 1, ""⟩]

/-- The boolean option catalog, in source order. -/
def BOOLEAN_OPTIONS : List BoolOption :=
  [⟨"power_saving", "--power-saving", "Power Saving", "Advanced",
      "Enable ryzenadj power-saving mode."⟩,
   ⟨"max_performance", "--max-performance", "Max Performance", "Advanced",
      "Enable ryzenadj max-performance mode."⟩]

/-- `default_profile_values` from `core/options.py`: every numeric key
at its default, every enabled flag and boolean key `False`, in the
insertion order of the source. -/
def default_profile_values : List (String × PyVal) :=
  (NUMERIC_OPTIONS.map (fun spec => (spec.key, PyVal.int spec.default)))
    ++ (NUMERIC_OPTIONS.map (fun spec => (spec.key ++ "_enabled", PyVal.bool false)))
    ++ (BOOLEAN_OPTIONS.map (fun opt => (opt.key, PyVal.bool false)))

/-- One numeric-option step of `build_ryzenadj_command`: skip the spec
unless its enabled flag is truthy, otherwise coerce the value with
`int(...)` (which can raise, modelled by `Option.none`) and append the
flag token and the printed value. -/
def buildNumericStep (values : List (String × PyVal)) (acc : List String)
    (spec : OptionSpec) : Option (List String) :=
  if pyTruthy ((alookup values (spec.key ++ "_enabled")).getD (PyVal.bool false)) then
    (pyInt ((alookup values spec.key).getD (PyVal.int 0))).map
      (fun v => acc ++ [spec.cli, toString v])
  else
    Option.some acc

/-- `build_ryzenadj_command` from `core/executor.py`.  The result is
`Option.none` when the Python code would raise (a non-coercible value
under an enabled flag), otherwise the ordered argument list. -/
def build_ryzenadj_command (values : List (String × PyVal))
    (binary : String) : Option (List String) :=
  (NUMERIC_OPTIONS.foldlM (buildNumericStep values) [binary]).map
    (fun numeric =>
      BOOLEAN_OPTIONS.foldl
        (fun acc opt =>
          if pyTruthy ((alookup values opt.key).getD (PyVal.bool false)) then
            acc ++ [opt.cli]
          else acc)
        numeric)



/-- A stored profile: a value map with scalar entries, as produced by
`_normalize_profile`. -/
abbrev Profile := List (String × PyVal)

/-- The profile store document: `selected` plus the named profiles, in
dictionary insertion order. -/
structure Doc where
  selected : String
  profiles : List (String × Profile)

/-- The single profile file on disk: absent, present but unparseable,
or present with parsed JSON content. -/
inductive Disk where
  | absent
  | invalid
  | stored (raw : PyVal)

/-- String comparison by code points, as used by Python `sorted` /
`json.dumps(..., sort_keys=True)`. -/
def leChars : List Char → List Char → Bool
  | [], _ => true
  | _ :: _, [] => false
  | a :: as, b :: bs =>
      if a.toNat < b.toNat then true
      else if b.toNat < a.toNat then false
      else leChars as bs

/-- Insert one keyed entry into a key-sorted association list. -/
def insertByKey (p : String × α) : List (String × α) → List (String × α)
  | [] => [p]
  | q :: rest =>
      if leChars p.1.toList q.1.toList then p :: q :: rest
      else q :: insertByKey p rest

/-- Sort an association list by key (the effect of `sort_keys=True` on
one JSON object level). -/
def sortByKey (l : List (String × α)) : List (String × α) :=
  l.foldr insertByKey []

/-- Serialization of the document by `json.dumps(data, indent=2,
sort_keys=True)`, modelled at the JSON-value level: every object level
has its keys sorted ("profiles" sorts before "selected"). -/
def docToJson (doc : Doc) : PyVal :=
  PyVal.dict
    [("profiles",
        PyVal.dict (sortByKey (doc.profiles.map (fun p => (p.1, PyVal.dict (sortByKey p.2)))))),
     ("selected", PyVal.str doc.selected)]

/-- The coercion `_normalize_profile` applies to a raw value destined
for an entry whose default is `dv`: truthiness where the default is a
boolean, clamped non-negative `int(...)` elsewhere, with the default
kept when `int(...)` raises. -/
def normValue (dv v : PyVal) : PyVal :=
  match dv with
  | PyVal.bool _ => PyVal.bool (pyTruthy v)
  | _ =>
    match pyInt v with
    | Option.some n => PyVal.int (max 0 n)
    | Option.none => dv

/-- One entry of `_normalize_profile`: overwrite a default entry with
the coerced raw value when the key occurs in the raw map. -/
def normEntry (raw : List (String × PyVal)) (kv : String × PyVal) : String × PyVal :=
  match alookup raw kv.1 with
  | Option.none => kv
  | Option.some v => (kv.1, normValue kv.2 v)

/-- `ProfileManager._normalize_profile`: start from the catalog
defaults and overwrite each key that occurs in the raw map (unknown
keys of the raw map are dropped). -/
def normalize_profile (raw : List (String × PyVal)) : Profile :=
  default_profile_values.map (normEntry raw)

/-- One step of the `cleaned` loop: keep an entry when its value is a
dict, normalizing it (`cleaned[name] = self._normalize_profile(...)`). -/
def cleanStep (acc : List (String × Profile)) (p : String × PyVal) :
    List (String × Profile) :=
  match p.2 with
  | PyVal.dict rawp => assocSet acc p.1 (normalize_profile rawp)
  | _ => acc

/-- The `cleaned` loop shared by `load_all` and `import_profiles`:
keep the entries whose value is a dict, normalizing each (JSON object
keys are strings, so the `isinstance(name, str)` test always holds). -/
def cleanedProfiles (fields : List (String × PyVal)) : List (String × Profile) :=
  fields.foldl cleanStep []

/-- The `selected` reset of `load_all`: the stored selection survives
only when it is a string naming a surviving profile (a non-string
selection never equals a string key, so it resets as well). -/
def selFromRaw (cleaned : List (String × Profile)) : Option PyVal → String
  | Option.some (PyVal.str s) => if cleaned.any (fun p => p.1 == s) then s else ""
  | _ => ""

/-- The `profiles` object of a parsed document: empty when the document
is not an object or its `profiles` field is missing or not an object. -/
def profilesFieldOf (raw : PyVal) : List (String × PyVal) :=
  match raw with
  | PyVal.dict fields =>
      match alookup fields "profiles" with
      | Option.some (PyVal.dict g) => g
      | _ => []
  | _ => []

/-- The `selected` field of a parsed document, defaulting to empty. -/
def selectedFieldOf (raw : PyVal) : Option PyVal :=
  match raw with
  | PyVal.dict fields => alookup fields "selected"
  | _ => Option.none

/-- The pure part of `load_all` on parsed file content: extract the
`profiles` object, normalize the surviving entries, and reset
`selected` to the empty string unless it names a surviving profile. -/
def load_norm (raw : PyVal) : Doc :=
  let cleaned := cleanedProfiles (profilesFieldOf raw)
  ⟨selFromRaw cleaned (selectedFieldOf raw), cleaned⟩

/-- `ProfileManager.save_all`: overwrite the file with the sorted-key
serialization of the document. -/
def save_all (data : Doc) : Disk :=
  Disk.stored (docToJson data)

/-- `ProfileManager.load_all`: initialize an empty document when the
file is absent, fail on unparseable content, otherwise normalize; in
every successful case the normalized document is written back before it
is returned.  The returned `Disk` is the file state after the call. -/
def load_all (d : Disk) : Disk × Except String Doc :=
  match d with
  | Disk.absent =>
      let data : Doc := ⟨"", []⟩
      (save_all data, Except.ok data)
  | Disk.invalid => (d, Except.error "Failed to read the profiles file.")
  | Disk.stored raw =>
      let data := load_norm raw
      (save_all data, Except.ok data)

/-- Sequencing after the internal `load_all` of a mutating operation:
a load failure propagates (the load may already have rewritten the
file), otherwise the operation continues on the loaded document. -/
def afterLoad (r : Disk × Except String Doc)
    (f : Disk → Doc → Disk × Except String Doc) : Disk × Except String Doc :=
  match r with
  | (d1, Except.error e) => (d1, Except.error e)
  | (d1, Except.ok data) => f d1 data

/-- The `selected` repair of `delete_profile` after removal: when the
deleted name was selected, fall to the iteration-order-first remaining
profile or to empty; when no profiles remain, fall to empty. -/
def deleteSel (selected name : String) (remaining : List (String × Profile)) : String :=
  if selected == name then
    match remaining with
    | [] => ""
    | p :: _ => p.1
  else if remaining.isEmpty then "" else selected

/-- The `selected` repair of deletion as §4.4 of the specification
words it: if the deleted name was selected, reassign to the
iteration-order-first remaining profile, or to empty if none remain;
otherwise leave the selection unchanged. -/
def deleteSelSpec (selected name : String)
    (remaining : List (String × Profile)) : String :=
  if selected == name then
    match remaining with
    | [] => ""
    | p :: _ => p.1
  else selected

/-- `ProfileManager.upsert_profile`: load (which rewrites the file),
reject blank names, store the normalized values under the name, select
it, and save. -/
def upsert_profile (name : String) (profile_values : List (String × PyVal))
    (d : Disk) : Disk × Except String Doc :=
  afterLoad (load_all d) (fun d1 data =>
    if pyStrip name == "" then
      (d1, Except.error "Profile name must not be empty.")
    else
      let doc : Doc := ⟨name, assocSet data.profiles name (normalize_profile profile_values)⟩
      (save_all doc, Except.ok doc))

/-- `ProfileManager.delete_profile`: load (which rewrites the file),
fail when the name is absent, otherwise remove it, repair `selected`,
and save. -/
def delete_profile (name : String) (d : Disk) : Disk × Except String Doc :=
  afterLoad (load_all d) (fun d1 data =>
    if data.profiles.any (fun p => p.1 == name) then
      let profiles := data.profiles.filter (fun p => !(p.1 == name))
      let doc : Doc := ⟨deleteSel data.selected name profiles, profiles⟩
      (save_all doc, Except.ok doc)
    else
      (d1, Except.error ("Profile " ++ name ++ " does not exist.")))

/-- The `selected` fixup of `import_profiles`: the source's stated
selection survives only when it is a string naming an imported profile,
else it defaults to the first imported profile. -/
def importSel (cleaned : List (String × Profile)) (first : String) : Option PyVal → String
  | Option.some (PyVal.str s) => if cleaned.any (fun p => p.1 == s) then s else first
  | _ => first

/-- The final step of `import_profiles` on the normalized entries: zero
surviving entries fail; otherwise the imported set replaces the store
and the fixed-up selection is persisted. -/
def importCleaned : List (String × Profile) → Option PyVal → Disk →
    Disk × Except String Doc
  | [], _, d => (d, Except.error "No valid profiles were found in imported file.")
  | c :: rest, selraw, _ =>
      let doc : Doc := ⟨importSel (c :: rest) c.1 selraw, c :: rest⟩
      (save_all doc, Except.ok doc)

/-- `import_profiles` on a parsed object: its `profiles` field must be
an object, whose entries are then normalized. -/
def importFields (fields : List (String × PyVal)) (d : Disk) :
    Disk × Except String Doc :=
  match alookup fields "profiles" with
  | Option.some (PyVal.dict pfields) =>
      importCleaned (cleanedProfiles pfields) (alookup fields "selected") d
  | _ => (d, Except.error "Imported file is missing profiles.")

/-- `ProfileManager.import_profiles`.  The first argument is the result
of reading and parsing the source file (`Option.none` models an
`OSError` or `JSONDecodeError`).  The store file is written only after
every validation has passed. -/
def import_profiles : Option PyVal → Disk → Disk × Except String Doc
  | Option.none, d => (d, Except.error "Failed to import profiles.")
  | Option.some (PyVal.dict fields), d => importFields fields d
  | Option.some _, d => (d, Except.error "Invalid profile file format.")

/-- A dict-valued Python value — the only shape of profile entry that
normalizes during load and import. -/
def isDictVal : PyVal → Bool
  | PyVal.dict _ => true
  | _ => false

/-- Rejection of a `profiles` field: missing, not an object, or an
object with zero normalizable (dict-valued) entries. -/
def importRejectsFields : Option PyVal → Bool
  | Option.some (PyVal.dict pfields) => pfields.all (fun p => !(isDictVal p.2))
  | _ => true

/-- Import sources rejected by `import_profiles` before any write:
documents that are not objects, lack a `profiles` object, or whose
`profiles` object contains zero normalizable (dict-valued) entries. -/
def importRejects : PyVal → Bool
  | PyVal.dict fields => importRejectsFields (alookup fields "profiles")
  | _ => true

/-- The reserved baseline profile name (`MainWindow`). -/
def INITIAL_DEFAULT_PROFILE_NAME : String := "Initial Default"

/-- `MainWindow._is_read_only_profile`. -/
def is_read_only_profile (name : String) : Bool :=
  pyStrip name == INITIAL_DEFAULT_PROFILE_NAME

/-- Outcome of a UI-level profile action. -/
inductive UiOutcome where
  | rejectedEmpty
  | rejectedReadOnly
  | done (doc : Doc)
  | failed (e : String)

/-- `MainWindow.save_current_profile`: strip the typed name, refuse
blank names and the reserved read-only name before touching the store,
then upsert. -/
def save_current_profile (typed : String) (values : List (String × PyVal))
    (d : Disk) : Disk × UiOutcome :=
  let name := pyStrip typed
  if name == "" then (d, UiOutcome.rejectedEmpty)
  else if is_read_only_profile name then (d, UiOutcome.rejectedReadOnly)
  else
    match upsert_profile name values d with
    | (d1, Except.ok doc) => (d1, UiOutcome.done doc)
    | (d1, Except.error e) => (d1, UiOutcome.failed e)

/-- `MainWindow.delete_selected_profile` (the store-facing path, after
the user confirms the dialog): strip the name, refuse blank names and
the reserved read-only name before touching the store, then delete. -/
def delete_selected_profile (typed : String) (d : Disk) : Disk × UiOutcome :=
  let name := pyStrip typed
  if name == "" then (d, UiOutcome.rejectedEmpty)
  else if is_read_only_profile name then (d, UiOutcome.rejectedReadOnly)
  else
    match delete_profile name d with
    | (d1, Except.ok doc) => (d1, UiOutcome.done doc)
    | (d1, Except.error e) => (d1, UiOutcome.failed e)

/-- An association list with pairwise-distinct keys, the shape of every
honest Python dictionary. -/
def NodupKeys {α : Type} (l : List (String × α)) : Prop :=
  (l.map Prod.fst).Nodup

/-- The normalizable entries of a `profiles` object, as a filter: the
dict-valued entries, each normalized.  Equal to `cleanedProfiles` on
unique-key objects. -/
def clnFilter (fields : List (String × PyVal)) : List (String × Profile) :=
  fields.filterMap
    (fun p =>
      match p.2 with
      | PyVal.dict rawp => Option.some (p.1, normalize_profile rawp)
      | _ => Option.none)

/-- The document returned by a store operation, when it succeeded. -/
def resultDoc (r : Disk × Except String Doc) : Option Doc :=
  match r.2 with
  | Except.ok doc => Option.some doc
  | Except.error _ => Option.none

/-- Shape of a catalog default value: a boolean, or a non-negative
integer. -/
def defaultShape : PyVal → Bool
  | PyVal.bool _ => true
  | PyVal.int n => decide (0 ≤ n)
  | _ => false

/-- Python `str.lower()` (ASCII case folding). -/
def pyLower (s : String) : String :=
  String.mk (s.toList.map Char.toLower)

/-- Substring test, Python `needle in hay`. -/
def isSub (needle : List Char) : List Char → Bool
  | [] => needle.isEmpty
  | c :: rest => needle.isPrefixOf (c :: rest) || isSub needle rest

/-- Python `str.splitlines()` restricted to the line feed separator
(the separator occurring in `ryzenadj --info` output). -/
def splitLines (s : String) : List String :=
  (s.toList.splitOn '\n').map String.mk

/-- The digit run of a matched number: maximal leading digits plus an
optional fractional part requiring at least one digit after the dot,
the text matched by `\d+(?:\.\d+)?`. -/
def numBody (cs : List Char) : List Char :=
  let ds := cs.takeWhile Char.isDigit
  match cs.dropWhile Char.isDigit with
  | '.' :: r =>
      let fs := r.takeWhile Char.isDigit
      if fs.isEmpty then ds else ds ++ '.' :: fs
  | _ => ds

/-- Leftmost match of the regex `-?\d+(?:\.\d+)?`: scan for the first
position holding a digit, or a minus sign immediately followed by a
digit, and return the matched text. -/
def grabNum : List Char → Option (List Char)
  | [] => Option.none
  | c :: rest =>
      if c.isDigit then Option.some (numBody (c :: rest))
      else if c = '-' then
        match rest with
        | c2 :: _ => if c2.isDigit then Option.some ('-' :: numBody rest) else grabNum rest
        | [] => Option.none
      else grabNum rest

/-- `int(float(t))` on a matched number text: truncate toward zero by
dropping the fractional part. -/
def truncOfNumText (cs : List Char) : Int :=
  match cs with
  | '-' :: rest => -((digitsToNat (rest.takeWhile Char.isDigit) : Int))
  | _ => (digitsToNat (cs.takeWhile Char.isDigit) : Int)

/-- One atom of a telemetry pattern prefix: a literal or the greedy
whitespace run `\s*`. -/
inductive Tok where
  | lit (s : String)
  | ws
deriving DecidableEq

/-- Match one pattern atom at the head of the text, returning the
remainder.  `\s*` before a non-whitespace literal is forced maximal. -/
def matchTok : Tok → List Char → Option (List Char)
  | Tok.lit s, cs => if s.toList.isPrefixOf cs then Option.some (cs.drop s.length) else Option.none
  | Tok.ws, cs => Option.some (cs.dropWhile isWS)

/-- Match a sequence of pattern atoms at the head of the text. -/
def matchSeq : List Tok → List Char → Option (List Char)
  | [], cs => Option.some cs
  | t :: ts, cs => (matchTok t cs).bind (matchSeq ts)

/-- Match an ordered alternation of atom sequences at the head of the
text (the `(?:a|b|c)` prefixes; their branches are mutually exclusive
at any one position, so first-branch-wins is exact). -/
def matchAlts : List (List Tok) → List Char → Option (List Char)
  | [], _ => Option.none
  | b :: bs, cs =>
      match matchSeq b cs with
      | Option.some rest => Option.some rest
      | Option.none => matchAlts bs cs

/-- A telemetry pattern `prefix[^\n]*?(-?\d+(?:\.\d+)?)`: an
alternation of literal/whitespace prefixes followed by a lazily
reached number group on the same line. -/
abbrev MetricPat := List (List Tok)

/-- One start position of the search: the position matches when a
prefix branch matches there and a number occurs in the rest of that
line (`[^\n]*?` cannot cross the line end); the captured group is that
first number. -/
def searchStep (p : MetricPat) (cs : List Char) : Option (List Char) :=
  match matchAlts p cs with
  | Option.some after => grabNum (after.takeWhile (fun ch => ch != '\n'))
  | Option.none => Option.none

/-- `re.search` for a telemetry pattern: try each start position from
the left, returning the captured group of the leftmost position that
matches. -/
def searchMetric (p : MetricPat) : List Char → Option (List Char)
  | [] => Option.none
  | c :: rest =>
      match searchStep p (c :: rest) with
      | Option.some g => Option.some g
      | Option.none => searchMetric p rest

/-- `INFO_PATTERNS` from `core/monitor.py`, with each regex split into
its prefix alternation; the shared `[^\n]*?(-?\d+(?:\.\d+)?)` tail is
the number search of `searchMetric`. -/
def INFO_PATTERNS : List (String × List MetricPat) :=
  [("stapm", [[[Tok.lit "stapm"]]]),
   ("ppt_fast", [[[Tok.lit "ppt", Tok.ws, Tok.lit "fast"]], [[Tok.lit "fast"]]]),
   ("ppt_slow", [[[Tok.lit "ppt", Tok.ws, Tok.lit "slow"]], [[Tok.lit "slow"]]]),
   ("cpu_temp",
      [[[Tok.lit "cpu", Tok.ws, Tok.lit "temp"], [Tok.lit "tctl"], [Tok.lit "temperature"]]]),
   ("power_draw",
      [[[Tok.lit "current", Tok.ws, Tok.lit "power", Tok.ws, Tok.lit "draw"],
        [Tok.lit "package", Tok.ws, Tok.lit "power"],
        [Tok.lit "cpu", Tok.ws, Tok.lit "power"]]])]

/-- First pattern (in priority order) with a match, and its captured
group. -/
def firstMetricMatch (pats : List MetricPat) (text : List Char) : Option (List Char) :=
  match pats with
  | [] => Option.none
  | p :: rest =>
      match searchMetric p text with
      | Option.some g => Option.some g
      | Option.none => firstMetricMatch rest text

/-- `parse_info_output` from `core/monitor.py`: lowercase the text,
then resolve every metric independently to the first captured numeric
token of its first matching pattern, defaulting to "N/A". -/
def parse_info_output (output : String) : List (String × String) :=
  let text := (pyLower output).toList
  INFO_PATTERNS.map
    (fun kp =>
      (kp.1,
        match firstMetricMatch kp.2 text with
        | Option.some g => String.mk g
        | Option.none => "N/A"))

/-- `spec.cli.lstrip("-").lower()`. -/
def specToken (spec : OptionSpec) : List Char :=
  ((spec.cli.toList.dropWhile (fun c => c == '-')).map Char.toLower)

/-- The dash-to-space variant of the flag token. -/
def specTokenAlt (spec : OptionSpec) : List Char :=
  (specToken spec).map (fun c => if c == '-' then ' ' else c)

/-- Line filter of the baseline scan: case-insensitive substring match
of the flag token or its dash-to-space variant. -/
def lineMatches (spec : OptionSpec) (line : String) : Bool :=
  let lowered := line.toList.map Char.toLower
  isSub (specToken spec) lowered || isSub (specTokenAlt spec) lowered

/-- First number of a line, as the integer `int(float(...))` yields. -/
def firstNumberInt (line : String) : Option Int :=
  (grabNum line.toList).map truncOfNumText

/-- The inner line loop of `parse_profile_values_from_info` for one
numeric option: the first matching line that also contains a number
decides the value; matching lines without a number are skipped. -/
def scanSpec (spec : OptionSpec) : List String → Option Int
  | [] => Option.none
  | line :: rest =>
      if lineMatches spec line then
        match firstNumberInt line with
        | Option.some v => Option.some v
        | Option.none => scanSpec spec rest
      else scanSpec spec rest

/-- One numeric option step of baseline reconstruction: scale the
parsed value only when the display scale exceeds one and the unscaled
value is at most `maximum / ui_scale`, clamp to non-negative, store it
and mark the option enabled. -/
def applySpec (lines : List String) (values : List (String × PyVal))
    (spec : OptionSpec) : List (String × PyVal) :=
  match scanSpec spec lines with
  | Option.none => values
  | Option.some v =>
      let scaled := if spec.ui_scale > 1 && decide (v ≤ spec.maximum / spec.ui_scale)
        then v * spec.ui_scale else v
      assocSet (assocSet values spec.key (PyVal.int (max 0 scaled)))
        (spec.key ++ "_enabled") (PyVal.bool true)

/-- `parse_profile_values_from_info` from `core/monitor.py`. -/
def parse_profile_values_from_info (output : String) : List (String × PyVal) :=
  let lines := splitLines output
  NUMERIC_OPTIONS.foldl (applySpec lines) default_profile_values






/-- One numeric argument step as §4.2 of the specification words it:
when the enabled flag is truthy, append the flag token and the value
coerced to an integer, defaulting to 0 if absent. -/
def numStepPure (values : List (String × PyVal)) (acc : List String)
    (spec : OptionSpec) : List String :=
  if pyTruthy ((alookup values (spec.key ++ "_enabled")).getD (PyVal.bool false)) then
    acc ++ [spec.cli,
      toString (match alookup values spec.key with
        | Option.none => (0 : Int)
        | Option.some v => (pyInt v).getD 0)]
  else acc

/-- One boolean argument step as §4.2 of the specification words it:
append the bare flag of a truthy boolean option. -/
def boolStepPure (values : List (String × PyVal)) (acc : List String)
    (opt : BoolOption) : List String :=
  if pyTruthy ((alookup values opt.key).getD (PyVal.bool false)) then acc ++ [opt.cli]
  else acc

/-- The numeric arguments of the built command per the specification,
in catalog order. -/
def commandNumericArgsSpec (values : List (String × PyVal)) : List String :=
  NUMERIC_OPTIONS.foldl (numStepPure values) []

/-- The boolean arguments of the built command per the specification,
in catalog order. -/
def commandBoolArgsSpec (values : List (String × PyVal)) : List String :=
  BOOLEAN_OPTIONS.foldl (boolStepPure values) []

/-- Enabled numeric values of the map are all coercible by `int(...)`
(this is the condition under which the builder cannot raise). -/
def CoercibleValues (values : List (String × PyVal)) : Prop :=
  ∀ spec ∈ NUMERIC_OPTIONS,
    pyTruthy ((alookup values (spec.key ++ "_enabled")).getD (PyVal.bool false)) = true →
      (pyInt ((alookup values spec.key).getD (PyVal.int 0))).isSome = true

instance (values : List (String × PyVal)) : Decidable (CoercibleValues values) := by
  unfold CoercibleValues
  infer_instance

/-- The selected-profile invariant on a document: empty or naming a
present profile. -/
def docInv (doc : Doc) : Bool :=
  doc.selected == "" || doc.profiles.any (fun p => p.1 == doc.selected)

/-- The invariant holds after an operation when the operation succeeded
(failed operations return no document). -/
def invAfter (r : Disk × Except String Doc) : Bool :=
  match r.2 with
  | Except.ok doc => docInv doc
  | Except.error _ => true

/-- Pairwise key disjointness of numeric option specs: distinct keys,
and no key collides with another key's enabled flag. -/
def specKeysDisjoint (a b : OptionSpec) : Bool :=
  !(a.key == b.key) && !(a.key == b.key ++ "_enabled")
    && !(b.key == a.key ++ "_enabled")
    && !(a.key ++ "_enabled" == b.key ++ "_enabled")

def specsOk : List OptionSpec → Bool
  | [] => true
  | s :: rest => rest.all (fun t => specKeysDisjoint s t) && specsOk rest

theorem foldl_append_of_step {β : Type} (f : List String → β → List String)
    (hf : ∀ (a b : List String) (s : β), f (a ++ b) s = a ++ f b s) :
    ∀ (l : List β) (acc : List String), l.foldl f acc = acc ++ l.foldl f [] := by
  intro l
  induction l with
  | nil => intro acc; simp
  | cons s rest ih =>
      intro acc
      simp only [List.foldl_cons]
      rw [ih (f acc s), ih (f [] s)]
      have : f acc s = acc ++ f [] s := by
        have h := hf acc [] s
        simpa using h
      rw [this, List.append_assoc]

theorem numStepPure_append (values : List (String × PyVal)) (a b : List String)
    (spec : OptionSpec) :
    numStepPure values (a ++ b) spec = a ++ numStepPure values b spec := by
  unfold numStepPure
  by_cases h : pyTruthy ((alookup values (spec.key ++ "_enabled")).getD (PyVal.bool false)) = true
  · simp [h, List.append_assoc]
  · simp [h]

theorem boolStepPure_append (values : List (String × PyVal)) (a b : List String)
    (opt : BoolOption) :
    boolStepPure values (a ++ b) opt = a ++ boolStepPure values b opt := by
  unfold boolStepPure
  by_cases h : pyTruthy ((alookup values opt.key).getD (PyVal.bool false)) = true
  · simp [h, List.append_assoc]
  · simp [h]

theorem foldlM_numeric_eq (values : List (String × PyVal)) :
    ∀ (l : List OptionSpec) (acc : List String),
      (∀ spec ∈ l,
        pyTruthy ((alookup values (spec.key ++ "_enabled")).getD (PyVal.bool false)) = true →
          (pyInt ((alookup values spec.key).getD (PyVal.int 0))).isSome = true) →
      l.foldlM (buildNumericStep values) acc
        = Option.some (l.foldl (numStepPure values) acc) := by
  intro l
  induction l with
  | nil => intro acc h; simp [List.foldlM]
  | cons spec rest ih =>
      intro acc h
      have hspec := h spec (List.mem_cons_self spec rest)
      have hrest : ∀ s ∈ rest,
          pyTruthy ((alookup values (s.key ++ "_enabled")).getD (PyVal.bool false)) = true →
            (pyInt ((alookup values s.key).getD (PyVal.int 0))).isSome = true :=
        fun s hs => h s (List.mem_cons_of_mem spec hs)
      simp only [List.foldlM_cons, List.foldl_cons]
      by_cases he :
          pyTruthy ((alookup values (spec.key ++ "_enabled")).getD (PyVal.bool false)) = true
      · obtain ⟨v, hv⟩ := Option.isSome_iff_exists.mp (hspec he)
        have hval :
            (match alookup values spec.key with
              | Option.none => (0 : Int)
              | Option.some w => (pyInt w).getD 0) = v := by
          cases hlk : alookup values spec.key with
          | none =>
              rw [hlk] at hv
              simp only [Option.getD_none] at hv
              simp only [pyInt] at hv
              cases hv
              rfl
          | some w =>
              rw [hlk] at hv
              simp only [Option.getD_some] at hv
              simp [hv]
        have hstep : buildNumericStep values acc spec
            = Option.some (numStepPure values acc spec) := by
          unfold buildNumericStep numStepPure
          rw [if_pos he, if_pos he, hv, hval]
          rfl
        rw [hstep]
        show rest.foldlM (buildNumericStep values) (numStepPure values acc spec) = _
        exact ih (numStepPure values acc spec) hrest
      · have he' :
            pyTruthy ((alookup values (spec.key ++ "_enabled")).getD (PyVal.bool false)) = false :=
          Bool.eq_false_iff.mpr he
        have hstep : buildNumericStep values acc spec = Option.some acc := by
          unfold buildNumericStep
          rw [if_neg (by simp [he'])]
        have hstep' : numStepPure values acc spec = acc := by
          unfold numStepPure
          rw [if_neg (by simp [he'])]
        rw [hstep, hstep']
        show rest.foldlM (buildNumericStep values) acc = _
        exact ih acc hrest

/-- C1 (amended): `build_ryzenadj_command` returns an argument list for
every value map whose enabled numeric values are `int(...)`-coercible
(missing values default to 0 and malformed enabled/boolean flags only
go through truthiness, which is total); it raises — returns
`Option.none` — when an enabled numeric value is not coercible, so the
builder is not total on arbitrary malformed maps. -/
theorem build_command_ok_of_coercible (values : List (String × PyVal)) (binary : String)
    (h : CoercibleValues values) :
    (build_ryzenadj_command values binary).isSome = true := by
  unfold build_ryzenadj_command
  rw [foldlM_numeric_eq values NUMERIC_OPTIONS [binary] h]
  simp

theorem build_command_ok_of_coercible_witness :
    CoercibleValues [("stapm_limit", PyVal.int 15000), ("stapm_limit_enabled", PyVal.bool true)]
      ∧ (build_ryzenadj_command
          [("stapm_limit", PyVal.int 15000), ("stapm_limit_enabled", PyVal.bool true)]
          "ryzenadj").isSome = true :=
  ⟨by decide,
   build_command_ok_of_coercible
     [("stapm_limit", PyVal.int 15000), ("stapm_limit_enabled", PyVal.bool true)]
     "ryzenadj" (by decide)⟩

/-- C1 (counterexample): a map holding a non-numeric string under an
enabled flag makes `int(values.get(spec.key, 0))` raise `ValueError`;
the builder fails instead of degrading silently. -/
theorem build_command_fails_on_noncoercible :
    build_ryzenadj_command
      [("stapm_limit", PyVal.str "watts"), ("stapm_limit_enabled", PyVal.bool true)]
      "ryzenadj" = Option.none := rfl

/-- C2 (amended): for every value map whose enabled numeric values are
coercible, the builder returns the executable followed by the numeric
arguments of §4.2 in catalog order and then the truthy boolean flags in
catalog order; in particular the catalog default map yields exactly
`["tool"]` and the single-enabled stapm map yields
`["tool", "--stapm-limit", "15000"]`.  (On a map with a non-coercible
enabled value the builder raises instead of returning a list.) -/
theorem build_command_catalog_order :
    (∀ (values : List (String × PyVal)) (binary : String), CoercibleValues values →
        build_ryzenadj_command values binary
          = Option.some (binary :: (commandNumericArgsSpec values ++ commandBoolArgsSpec values)))
      ∧ build_ryzenadj_command default_profile_values "tool" = Option.some ["tool"]
      ∧ build_ryzenadj_command
          [("stapm_limit", PyVal.int 15000), ("stapm_limit_enabled", PyVal.bool true)]
          "tool" = Option.some ["tool", "--stapm-limit", "15000"] := by
  refine ⟨?_, rfl, rfl⟩
  intro values binary h
  unfold build_ryzenadj_command
  rw [foldlM_numeric_eq values NUMERIC_OPTIONS [binary] h]
  unfold commandNumericArgsSpec commandBoolArgsSpec
  have hb : ∀ (l : List BoolOption) (acc : List String),
      l.foldl
        (fun acc opt =>
          if pyTruthy ((alookup values opt.key).getD (PyVal.bool false)) then acc ++ [opt.cli]
          else acc)
        acc = l.foldl (boolStepPure values) acc := by
    intro l
    induction l with
    | nil => intro acc; rfl
    | cons o rest ih =>
        intro acc
        simp only [List.foldl_cons]
        rw [ih]
        rfl
  have hnum : NUMERIC_OPTIONS.foldl (numStepPure values) [binary]
      = [binary] ++ NUMERIC_OPTIONS.foldl (numStepPure values) [] :=
    foldl_append_of_step (numStepPure values) (numStepPure_append values) NUMERIC_OPTIONS [binary]
  have hbool : BOOLEAN_OPTIONS.foldl (boolStepPure values)
      ([binary] ++ NUMERIC_OPTIONS.foldl (numStepPure values) [])
      = ([binary] ++ NUMERIC_OPTIONS.foldl (numStepPure values) [])
          ++ BOOLEAN_OPTIONS.foldl (boolStepPure values) [] :=
    foldl_append_of_step (boolStepPure values) (boolStepPure_append values) BOOLEAN_OPTIONS _
  calc Option.map
        (fun numeric =>
          BOOLEAN_OPTIONS.foldl
            (fun acc opt =>
              if pyTruthy ((alookup values opt.key).getD (PyVal.bool false)) then acc ++ [opt.cli]
              else acc)
            numeric)
        (Option.some (NUMERIC_OPTIONS.foldl (numStepPure values) [binary]))
      = Option.some (BOOLEAN_OPTIONS.foldl (boolStepPure values)
          (NUMERIC_OPTIONS.foldl (numStepPure values) [binary])) := by
        rw [Option.map_some']
        rw [hb]
    _ = Option.some (binary :: (NUMERIC_OPTIONS.foldl (numStepPure values) []
          ++ BOOLEAN_OPTIONS.foldl (boolStepPure values) [])) := by
        rw [hnum, hbool]
        simp

theorem build_command_catalog_order_witness :
    CoercibleValues default_profile_values
      ∧ build_ryzenadj_command default_profile_values "tool"
          = Option.some ("tool" :: (commandNumericArgsSpec default_profile_values
              ++ commandBoolArgsSpec default_profile_values)) :=
  ⟨by decide, build_command_catalog_order.1 default_profile_values "tool" (by decide)⟩

/-- C2 (counterexample): the universally quantified form fails — a map
with a non-coercible string under an enabled flag makes the builder
raise rather than return the described list. -/
theorem build_command_not_total :
    build_ryzenadj_command
      [("fast_limit", PyVal.str "max"), ("fast_limit_enabled", PyVal.bool true)]
      "tool" = Option.none := rfl

/-- C4: the reserved baseline profile name is rejected by the normal
save and delete operations before the store is touched: for every value
map and every store state, saving under "Initial Default" and deleting
"Initial Default" return the read-only rejection and leave the profile
file unchanged. -/
theorem reserved_profile_guard :
    ∀ (values : List (String × PyVal)) (d : Disk),
      save_current_profile "Initial Default" values d = (d, UiOutcome.rejectedReadOnly)
        ∧ delete_selected_profile "Initial Default" d = (d, UiOutcome.rejectedReadOnly) := by
  intro values d
  exact ⟨rfl, rfl⟩

/-- C10: every successful `load_all` leaves the profile file holding
exactly the serialization of the document it returns — the file is
rewritten even when the call is a pure read. -/
theorem load_all_rewrites_file :
    ∀ (d d1 : Disk) (doc : Doc), load_all d = (d1, Except.ok doc) →
      d1 = Disk.stored (docToJson doc) := by
  intro d d1 doc h
  cases d with
  | absent =>
      simp only [load_all] at h
      cases h
      rfl
  | invalid =>
      simp only [load_all] at h
      cases h
  | stored raw =>
      simp only [load_all] at h
      cases h
      rfl

theorem load_all_rewrites_file_witness :
    load_all Disk.absent
        = (Disk.stored (docToJson ⟨"", []⟩), Except.ok (⟨"", []⟩ : Doc))
      ∧ (load_all Disk.absent).1 = Disk.stored (docToJson (⟨"", []⟩ : Doc)) :=
  ⟨rfl, load_all_rewrites_file Disk.absent (load_all Disk.absent).1 ⟨"", []⟩ rfl⟩

theorem alookup_cons {α : Type} (p : String × α) (rest : List (String × α)) (k : String) :
    alookup (p :: rest) k = if p.1 == k then Option.some p.2 else alookup rest k := by
  unfold alookup
  by_cases h : (p.1 == k) = true
  · simp [List.find?, h]
  · have h' : (p.1 == k) = false := Bool.eq_false_iff.mpr h
    simp [List.find?, h']

theorem alookup_assocSet_self {α : Type} :
    ∀ (m : List (String × α)) (k : String) (v : α),
      alookup (assocSet m k v) k = Option.some v := by
  intro m
  induction m with
  | nil => intro k v; simp [assocSet, alookup, List.find?]
  | cons p rest ih =>
      intro k v
      simp only [assocSet]
      by_cases h : (p.1 == k) = true
      · rw [if_pos h, alookup_cons]
        simp
      · rw [if_neg h, alookup_cons, if_neg h, ih]

theorem alookup_assocSet_ne {α : Type} :
    ∀ (m : List (String × α)) (k x : String) (v : α), (k == x) = false →
      alookup (assocSet m k v) x = alookup m x := by
  intro m
  induction m with
  | nil =>
      intro k x v h
      simp [assocSet, alookup, List.find?, h]
  | cons p rest ih =>
      intro k x v h
      simp only [assocSet]
      by_cases hp : (p.1 == k) = true
      · rw [if_pos hp]
        have hpk : p.1 = k := by simpa using hp
        rw [alookup_cons, alookup_cons]
        simp only [hpk]
        rw [if_neg (by simp [h] : ¬((k == x) = true)), if_neg (by simp [h] : ¬((k == x) = true))]
      · rw [if_neg hp, alookup_cons, alookup_cons, ih k x v h]

theorem anyKey_assocSet {α : Type} :
    ∀ (m : List (String × α)) (k x : String) (v : α),
      (assocSet m k v).any (fun p => p.1 == x) = (m.any (fun p => p.1 == x) || k == x) := by
  intro m
  induction m with
  | nil => intro k x v; simp [assocSet]
  | cons p rest ih =>
      intro k x v
      simp only [assocSet]
      by_cases hp : (p.1 == k) = true
      · rw [if_pos hp]
        have hpk : p.1 = k := by simpa using hp
        cases hkx : (k == x) <;> simp [List.any_cons, hpk, hkx]
      · rw [if_neg hp]
        simp only [List.any_cons, ih, Bool.or_assoc]

theorem docInv_sel (cleaned : List (String × Profile)) (sv : Option PyVal) :
    docInv ⟨selFromRaw cleaned sv, cleaned⟩ = true := by
  cases sv with
  | none => simp [selFromRaw, docInv]
  | some v =>
      cases v with
      | str s =>
          simp only [selFromRaw]
          by_cases h : cleaned.any (fun p => p.1 == s) = true
          · rw [if_pos h]
            unfold docInv
            simp only []
            rw [h]
            simp
          · rw [if_neg h]
            simp [docInv]
      | none => simp [selFromRaw, docInv]
      | bool b => simp [selFromRaw, docInv]
      | int n => simp [selFromRaw, docInv]
      | list xs => simp [selFromRaw, docInv]
      | dict g => simp [selFromRaw, docInv]

theorem docInv_load_norm (raw : PyVal) : docInv (load_norm raw) = true := by
  unfold load_norm
  exact docInv_sel _ _

theorem docInv_load (d : Disk) :
    ∀ d1 data, load_all d = (d1, Except.ok data) → docInv data = true := by
  intro d1 data h
  cases d with
  | absent =>
      simp only [load_all] at h
      cases h
      rfl
  | invalid => simp only [load_all] at h; cases h
  | stored raw =>
      simp only [load_all] at h
      cases h
      exact docInv_load_norm raw

theorem cleanStep_skips (fields : List (String × PyVal)) :
    ∀ acc, fields.all (fun p => !(isDictVal p.2)) = true →
      fields.foldl cleanStep acc = acc := by
  induction fields with
  | nil => intro acc h; rfl
  | cons p rest ih =>
      intro acc h
      rw [List.all_cons, Bool.and_eq_true] at h
      have hstep : cleanStep acc p = acc := by
        unfold cleanStep
        cases hv : p.2 with
        | dict rawp =>
            rw [hv] at h
            simp [isDictVal] at h
        | none => rfl
        | bool b => rfl
        | int n => rfl
        | str s => rfl
        | list xs => rfl
      rw [List.foldl_cons, hstep]
      exact ih acc h.2

theorem invAfter_load (d : Disk) : invAfter (load_all d) = true := by
  cases d with
  | absent => rfl
  | invalid => rfl
  | stored raw =>
      show docInv (load_norm raw) = true
      exact docInv_load_norm raw

/-- C6: an import source whose `profiles` object contains zero
normalizable entries (or that is not an object, or lacks a `profiles`
object) makes `import_profiles` fail, and the on-disk profile document
is left unchanged — no write happens before the error. -/
theorem import_rejected_leaves_store (d : Disk) (j : PyVal)
    (h : importRejects j = true) :
    (import_profiles (Option.some j) d).1 = d
      ∧ ∃ e, (import_profiles (Option.some j) d).2 = Except.error e := by
  cases j with
  | dict fields =>
      show (importFields fields d).1 = d ∧ ∃ e, (importFields fields d).2 = Except.error e
      simp only [importRejects] at h
      unfold importFields
      split
      · rename_i pfields heq
        rw [heq] at h
        have hall : pfields.all (fun p => !(isDictVal p.2)) = true := by
          simpa [importRejectsFields] using h
        rw [show cleanedProfiles pfields = ([] : List (String × Profile)) from
          cleanStep_skips pfields [] hall]
        exact ⟨rfl, _, rfl⟩
      · exact ⟨rfl, _, rfl⟩
  | none => exact ⟨rfl, _, rfl⟩
  | bool b => exact ⟨rfl, _, rfl⟩
  | int n => exact ⟨rfl, _, rfl⟩
  | str s => exact ⟨rfl, _, rfl⟩
  | list xs => exact ⟨rfl, _, rfl⟩

theorem import_rejected_leaves_store_witness :
    importRejects (PyVal.dict [("profiles", PyVal.dict [("Quiet", PyVal.int 3)])]) = true
      ∧ ((import_profiles
            (Option.some (PyVal.dict [("profiles", PyVal.dict [("Quiet", PyVal.int 3)])]))
            (Disk.stored (PyVal.dict []))).1 = Disk.stored (PyVal.dict [])
          ∧ ∃ e, (import_profiles
              (Option.some (PyVal.dict [("profiles", PyVal.dict [("Quiet", PyVal.int 3)])]))
              (Disk.stored (PyVal.dict []))).2 = Except.error e) :=
  ⟨rfl,
   import_rejected_leaves_store (Disk.stored (PyVal.dict []))
     (PyVal.dict [("profiles", PyVal.dict [("Quiet", PyVal.int 3)])]) rfl⟩

theorem invAfter_upsert (name : String) (vals : List (String × PyVal)) (d : Disk) :
    invAfter (upsert_profile name vals d) = true := by
  unfold upsert_profile
  cases hl : load_all d with
  | mk d1 r =>
      cases r with
      | error e => rfl
      | ok data =>
          simp only [afterLoad]
          by_cases hn : (pyStrip name == "") = true
          · rw [if_pos hn]
            rfl
          · rw [if_neg hn]
            show docInv ⟨name, assocSet data.profiles name (normalize_profile vals)⟩ = true
            unfold docInv
            simp only []
            rw [anyKey_assocSet]
            simp

theorem any_filter_keep {α : Type} (l : List (String × α)) (sel name : String)
    (hsel : l.any (fun p => p.1 == sel) = true) (hne : (sel == name) = false) :
    (l.filter (fun p => !(p.1 == name))).any (fun p => p.1 == sel) = true := by
  obtain ⟨x, hx, hpx⟩ := List.any_eq_true.mp hsel
  refine List.any_eq_true.mpr ⟨x, List.mem_filter.mpr ⟨hx, ?_⟩, hpx⟩
  have hxe : x.1 = sel := by simpa using hpx
  simp [hxe, hne]

theorem docInv_deleteSel (selected name : String) (remaining : List (String × Profile))
    (h : (selected == "" || remaining.any (fun p => p.1 == selected)) = true
        ∨ (selected == name) = true) :
    docInv ⟨deleteSel selected name remaining, remaining⟩ = true := by
  unfold docInv deleteSel
  simp only []
  by_cases hselname : (selected == name) = true
  · rw [if_pos hselname]
    cases remaining with
    | nil => simp
    | cons q qs => simp
  · rw [if_neg hselname]
    by_cases hempty : remaining.isEmpty = true
    · rw [if_pos hempty]
      simp
    · rw [if_neg hempty]
      rcases h with hinv | hsel
      · exact hinv
      · exact absurd hsel hselname

theorem invAfter_delete (name : String) (d : Disk) :
    invAfter (delete_profile name d) = true := by
  unfold delete_profile
  cases hl : load_all d with
  | mk d1 r =>
      cases r with
      | error e => rfl
      | ok data =>
          simp only [afterLoad]
          by_cases hmem : data.profiles.any (fun p => p.1 == name) = true
          · rw [if_pos hmem]
            have hinv : docInv data = true := docInv_load d d1 data hl
            show docInv ⟨deleteSel data.selected name
              (data.profiles.filter (fun p => !(p.1 == name))),
              data.profiles.filter (fun p => !(p.1 == name))⟩ = true
            apply docInv_deleteSel
            by_cases hselname : (data.selected == name) = true
            · exact Or.inr hselname
            · left
              unfold docInv at hinv
              cases hor : (data.selected == "") with
              | true => simp
              | false =>
                  rw [hor] at hinv
                  simp only [Bool.false_or] at hinv
                  have hkeep := any_filter_keep data.profiles data.selected name hinv
                    (Bool.eq_false_iff.mpr hselname)
                  rw [hkeep]
                  simp
          · rw [if_neg hmem]
            rfl

theorem docInv_importSel (c : String × Profile) (rest : List (String × Profile))
    (sv : Option PyVal) :
    docInv ⟨importSel (c :: rest) c.1 sv, c :: rest⟩ = true := by
  cases sv with
  | none => simp [importSel, docInv]
  | some v =>
      cases v with
      | str s =>
          unfold importSel docInv
          simp only []
          by_cases hany : ((c :: rest).any (fun p => p.1 == s)) = true
          · rw [if_pos hany, hany]
            simp
          · rw [if_neg hany]
            simp
      | none => simp [importSel, docInv]
      | bool b => simp [importSel, docInv]
      | int n => simp [importSel, docInv]
      | list xs => simp [importSel, docInv]
      | dict g => simp [importSel, docInv]

theorem invAfter_import (src : Option PyVal) (d : Disk) :
    invAfter (import_profiles src d) = true := by
  cases src with
  | none => rfl
  | some j =>
      cases j with
      | dict fields =>
          show invAfter (importFields fields d) = true
          unfold importFields
          split
          · rename_i pfields heq
            cases hcl : cleanedProfiles pfields with
            | nil => rfl
            | cons c rest =>
                show docInv ⟨importSel (c :: rest) c.1 (alookup fields "selected"),
                  c :: rest⟩ = true
                exact docInv_importSel c rest (alookup fields "selected")
          · rfl
      | none => rfl
      | bool b => rfl
      | int n => rfl
      | str s => rfl
      | list xs => rfl

theorem deleteSel_eq_spec (selected name : String) (profiles : List (String × Profile))
    (hinv : (selected == "" || profiles.any (fun p => p.1 == selected)) = true) :
    deleteSel selected name (profiles.filter (fun p => !(p.1 == name)))
      = deleteSelSpec selected name (profiles.filter (fun p => !(p.1 == name))) := by
  unfold deleteSel deleteSelSpec
  by_cases hsn : (selected == name) = true
  · rw [if_pos hsn, if_pos hsn]
  · rw [if_neg hsn, if_neg hsn]
    by_cases hemp : (profiles.filter (fun p => !(p.1 == name))).isEmpty = true
    · rw [if_pos hemp]
      cases hor : (selected == "") with
      | true =>
          have hsel : selected = "" := by simpa using hor
          rw [hsel]
      | false =>
          rw [hor] at hinv
          simp only [Bool.false_or] at hinv
          obtain ⟨x, hx, hpx⟩ := List.any_eq_true.mp hinv
          have hnil : profiles.filter (fun p => !(p.1 == name)) = [] := by
            cases hfe : profiles.filter (fun p => !(p.1 == name)) with
            | nil => rfl
            | cons a as =>
                rw [hfe] at hemp
                simp [List.isEmpty] at hemp
          have hxq : ¬ ((!(x.1 == name)) = true) := by
            intro hq
            have hmemf : x ∈ profiles.filter (fun p => !(p.1 == name)) :=
              List.mem_filter.mpr ⟨hx, hq⟩
            rw [hnil] at hmemf
            cases hmemf
          have hxname : (x.1 == name) = true := by
            cases hb : (x.1 == name) with
            | true => rfl
            | false => exact absurd (by simp [hb]) hxq
          have hxsel : x.1 = selected := by simpa using hpx
          have hcontra : (selected == name) = true := by
            rw [← hxsel]
            exact hxname
          exact absurd hcontra hsn
    · rw [if_neg hemp]

/-- C8: `delete_profile` fails with a persistence error when the name
is absent from the stored profiles; when present, the profile is
removed and `selected` is reassigned to the iteration-order-first
remaining profile when the deleted name was selected (empty when no
profiles remain), and kept otherwise. -/
theorem delete_profile_spec :
    ∀ (d : Disk) (name : String) (d1 : Disk) (data : Doc),
      load_all d = (d1, Except.ok data) →
      ((data.profiles.any (fun p => p.1 == name) = false →
          delete_profile name d
            = (d1, Except.error ("Profile " ++ name ++ " does not exist.")))
        ∧ (data.profiles.any (fun p => p.1 == name) = true →
            delete_profile name d
              = (save_all ⟨deleteSelSpec data.selected name
                    (data.profiles.filter (fun p => !(p.1 == name))),
                  data.profiles.filter (fun p => !(p.1 == name))⟩,
                 Except.ok ⟨deleteSelSpec data.selected name
                    (data.profiles.filter (fun p => !(p.1 == name))),
                  data.profiles.filter (fun p => !(p.1 == name))⟩))) := by
  intro d name d1 data hl
  constructor
  · intro habs
    unfold delete_profile
    rw [hl]
    simp only [afterLoad]
    rw [if_neg (by simp [habs])]
  · intro hmem
    unfold delete_profile
    rw [hl]
    simp only [afterLoad]
    rw [if_pos hmem]
    have hinv : docInv data = true := docInv_load d d1 data hl
    unfold docInv at hinv
    rw [deleteSel_eq_spec data.selected name data.profiles hinv]

theorem delete_profile_spec_witness :
    load_all (Disk.stored (PyVal.dict
        [("profiles", PyVal.dict [("A", PyVal.dict []), ("B", PyVal.dict [])]),
         ("selected", PyVal.str "A")]))
      = ((load_all (Disk.stored (PyVal.dict
          [("profiles", PyVal.dict [("A", PyVal.dict []), ("B", PyVal.dict [])]),
           ("selected", PyVal.str "A")]))).1,
         Except.ok ⟨"A", [("A", normalize_profile []), ("B", normalize_profile [])]⟩)
      ∧ delete_profile "A" (Disk.stored (PyVal.dict
          [("profiles", PyVal.dict [("A", PyVal.dict []), ("B", PyVal.dict [])]),
           ("selected", PyVal.str "A")]))
          = (save_all ⟨"B", [("B", normalize_profile [])]⟩,
             Except.ok ⟨"B", [("B", normalize_profile [])]⟩) :=
  ⟨rfl,
   (delete_profile_spec
      (Disk.stored (PyVal.dict
        [("profiles", PyVal.dict [("A", PyVal.dict []), ("B", PyVal.dict [])]),
         ("selected", PyVal.str "A")]))
      "A" _ ⟨"A", [("A", normalize_profile []), ("B", normalize_profile [])]⟩ rfl).2 rfl⟩

/-- C7: after every store operation that returns a document, the
document's `selected` field is either empty or a key of its
`profiles` — for any store state, name, value map and import source. -/
theorem store_selected_invariant :
    ∀ (d : Disk) (name : String) (vals : List (String × PyVal)) (src : Option PyVal),
      invAfter (load_all d) = true
        ∧ invAfter (upsert_profile name vals d) = true
        ∧ invAfter (delete_profile name d) = true
        ∧ invAfter (import_profiles src d) = true :=
  fun d name vals src =>
    ⟨invAfter_load d, invAfter_upsert name vals d, invAfter_delete name d,
     invAfter_import src d⟩

theorem insertByKey_perm {α : Type} (p : String × α) :
    ∀ (l : List (String × α)), (insertByKey p l).Perm (p :: l) := by
  intro l
  induction l with
  | nil => exact List.Perm.refl _
  | cons q rest ih =>
      unfold insertByKey
      by_cases h : leChars p.1.toList q.1.toList = true
      · rw [if_pos h]
      · rw [if_neg h]
        exact List.Perm.trans (List.Perm.cons q ih) (List.Perm.swap p q rest)

theorem sortByKey_perm {α : Type} (l : List (String × α)) :
    (sortByKey l).Perm l := by
  induction l with
  | nil => exact List.Perm.refl _
  | cons p rest ih =>
      unfold sortByKey
      rw [List.foldr_cons]
      exact List.Perm.trans (insertByKey_perm p _) (List.Perm.cons p ih)

theorem nodupKeys_of_perm {α : Type} {l l' : List (String × α)}
    (h : l.Perm l') (hn : NodupKeys l) : NodupKeys l' :=
  ((h.map Prod.fst).nodup_iff).mp hn

theorem eq_of_mem_nodupKeys {α : Type} :
    ∀ (l : List (String × α)) (p q : String × α), NodupKeys l →
      p ∈ l → q ∈ l → p.1 = q.1 → p = q := by
  intro l
  induction l with
  | nil => intro p q _ hp _ _; cases hp
  | cons r rest ih =>
      intro p q hn hp hq hpq
      have hn' : r.1 ∉ rest.map Prod.fst ∧ NodupKeys rest := by
        unfold NodupKeys at hn
        rw [List.map_cons, List.nodup_cons] at hn
        exact hn
      rcases List.mem_cons.mp hp with hp1 | hp2
      · rcases List.mem_cons.mp hq with hq1 | hq2
        · rw [hp1, hq1]
        · exfalso
          apply hn'.1
          have hr : r.1 = q.1 := by rw [← hp1]; exact hpq
          rw [hr]
          exact List.mem_map_of_mem Prod.fst hq2
      · rcases List.mem_cons.mp hq with hq1 | hq2
        · exfalso
          apply hn'.1
          have hr : r.1 = p.1 := by rw [← hq1]; exact hpq.symm
          rw [hr]
          exact List.mem_map_of_mem Prod.fst hp2
        · exact ih p q hn'.2 hp2 hq2 hpq

theorem alookup_eq_some_iff {α : Type} :
    ∀ (l : List (String × α)) (k : String) (v : α), NodupKeys l →
      (alookup l k = Option.some v ↔ (k, v) ∈ l) := by
  intro l
  induction l with
  | nil =>
      intro k v _
      simp [alookup, List.find?]
  | cons p rest ih =>
      intro k v hn
      have hn' : p.1 ∉ rest.map Prod.fst ∧ NodupKeys rest := by
        unfold NodupKeys at hn
        rw [List.map_cons, List.nodup_cons] at hn
        exact hn
      rw [alookup_cons]
      by_cases hpk : (p.1 == k) = true
      · rw [if_pos hpk]
        have hpe : p.1 = k := by simpa using hpk
        constructor
        · intro hv
          have hv' : p.2 = v := by injection hv
          exact List.mem_cons.mpr (Or.inl (Prod.ext_iff.mpr ⟨hpe.symm, hv'.symm⟩))
        · intro hv
          rcases List.mem_cons.mp hv with h1 | h2
          · rw [← h1]
          · exfalso
            apply hn'.1
            rw [hpe]
            exact List.mem_map_of_mem Prod.fst h2
      · rw [if_neg hpk]
        rw [ih k v hn'.2]
        constructor
        · intro hv
          exact List.mem_cons_of_mem p hv
        · intro hv
          rcases List.mem_cons.mp hv with h1 | h2
          · exfalso
            apply hpk
            rw [← h1]
            simp
          · exact h2

theorem alookup_perm {α : Type} {l l' : List (String × α)}
    (h : l.Perm l') (hn : NodupKeys l) (k : String) :
    alookup l k = alookup l' k := by
  have hn' : NodupKeys l' := nodupKeys_of_perm h hn
  cases hf : alookup l k with
  | some v =>
      have hm : (k, v) ∈ l := (alookup_eq_some_iff l k v hn).mp hf
      exact ((alookup_eq_some_iff l' k v hn').mpr (h.mem_iff.mp hm)).symm
  | none =>
      cases hf' : alookup l' k with
      | none => rfl
      | some w =>
          have hm : (k, w) ∈ l' := (alookup_eq_some_iff l' k w hn').mp hf'
          have : alookup l k = Option.some w :=
            (alookup_eq_some_iff l k w hn).mpr (h.mem_iff.mpr hm)
          rw [hf] at this
          cases this

theorem keys_assocSet_sub {α : Type} :
    ∀ (m : List (String × α)) (k : String) (v : α) (x : String),
      x ∈ (assocSet m k v).map Prod.fst → x ∈ m.map Prod.fst ∨ x = k := by
  intro m
  induction m with
  | nil =>
      intro k v x hx
      simp [assocSet] at hx
      exact Or.inr hx
  | cons p rest ih =>
      intro k v x hx
      simp only [assocSet] at hx
      by_cases hp : (p.1 == k) = true
      · rw [if_pos hp] at hx
        rw [List.map_cons, List.mem_cons] at hx
        rcases hx with h1 | h2
        · exact Or.inr h1
        · exact Or.inl (by rw [List.map_cons, List.mem_cons]; exact Or.inr h2)
      · rw [if_neg hp] at hx
        rw [List.map_cons, List.mem_cons] at hx
        rcases hx with h1 | h2
        · exact Or.inl (by rw [List.map_cons, List.mem_cons]; exact Or.inl h1)
        · rcases ih k v x h2 with h3 | h4
          · exact Or.inl (by rw [List.map_cons, List.mem_cons]; exact Or.inr h3)
          · exact Or.inr h4

theorem nodupKeys_assocSet {α : Type} :
    ∀ (m : List (String × α)) (k : String) (v : α), NodupKeys m →
      NodupKeys (assocSet m k v) := by
  intro m
  induction m with
  | nil =>
      intro k v _
      simp [assocSet, NodupKeys]
  | cons p rest ih =>
      intro k v hn
      have hn' : p.1 ∉ rest.map Prod.fst ∧ NodupKeys rest := by
        unfold NodupKeys at hn
        rw [List.map_cons, List.nodup_cons] at hn
        exact hn
      simp only [assocSet]
      by_cases hp : (p.1 == k) = true
      · rw [if_pos hp]
        have hpe : p.1 = k := by simpa using hp
        unfold NodupKeys
        rw [List.map_cons, List.nodup_cons]
        exact ⟨by rw [← hpe]; exact hn'.1, hn'.2⟩
      · rw [if_neg hp]
        unfold NodupKeys
        rw [List.map_cons, List.nodup_cons]
        constructor
        · intro hmem
          rcases keys_assocSet_sub rest k v p.1 hmem with h1 | h2
          · exact hn'.1 h1
          · exact hp (by rw [h2]; simp)
        · exact ih k v hn'.2

theorem assocSet_fresh {α : Type} :
    ∀ (m : List (String × α)) (k : String) (v : α),
      m.any (fun p => p.1 == k) = false → assocSet m k v = m ++ [(k, v)] := by
  intro m
  induction m with
  | nil => intro k v _; rfl
  | cons p rest ih =>
      intro k v h
      rw [List.any_cons] at h
      have h1 : (p.1 == k) = false := by
        cases hb : (p.1 == k) with
        | true => rw [hb] at h; simp at h
        | false => rfl
      have h2 : rest.any (fun p => p.1 == k) = false := by
        cases hb : rest.any (fun p => p.1 == k) with
        | true => rw [hb] at h; simp at h
        | false => rfl
      simp only [assocSet]
      rw [if_neg (by simp [h1]), ih k v h2]
      rfl

theorem cleaned_eq_clnFilter_aux :
    ∀ (fields : List (String × PyVal)) (acc : List (String × Profile)),
      NodupKeys fields →
      (∀ p ∈ fields, acc.any (fun q => q.1 == p.1) = false) →
      fields.foldl cleanStep acc = acc ++ clnFilter fields := by
  intro fields
  induction fields with
  | nil => intro acc _ _; simp [clnFilter]
  | cons p rest ih =>
      intro acc hn hdisj
      have hn' : p.1 ∉ rest.map Prod.fst ∧ NodupKeys rest := by
        unfold NodupKeys at hn
        rw [List.map_cons, List.nodup_cons] at hn
        exact hn
      rw [List.foldl_cons]
      cases hv : p.2 with
      | dict rawp =>
          have hstep : cleanStep acc p = acc ++ [(p.1, normalize_profile rawp)] := by
            unfold cleanStep
            rw [hv]
            exact assocSet_fresh acc p.1 (normalize_profile rawp)
              (hdisj p (List.mem_cons_self p rest))
          rw [hstep]
          have hdisj' : ∀ q ∈ rest,
              (acc ++ [(p.1, normalize_profile rawp)]).any (fun r => r.1 == q.1) = false := by
            intro q hq
            rw [List.any_append]
            have ha : acc.any (fun r => r.1 == q.1) = false :=
              hdisj q (List.mem_cons_of_mem p hq)
            have hb : (p.1 == q.1) = false := by
              cases hb' : (p.1 == q.1) with
              | true =>
                  exfalso
                  apply hn'.1
                  have : p.1 = q.1 := by simpa using hb'
                  rw [this]
                  exact List.mem_map_of_mem Prod.fst hq
              | false => rfl
            rw [ha]
            simp [hb]
          rw [ih (acc ++ [(p.1, normalize_profile rawp)]) hn'.2 hdisj']
          have hcln : clnFilter (p :: rest)
              = (p.1, normalize_profile rawp) :: clnFilter rest := by
            unfold clnFilter
            rw [List.filterMap_cons]
            rw [hv]
          rw [hcln, List.append_assoc]
          rfl
      | none =>
          have hstep : cleanStep acc p = acc := by unfold cleanStep; rw [hv]
          rw [hstep, ih acc hn'.2 (fun q hq => hdisj q (List.mem_cons_of_mem p hq))]
          have hcln : clnFilter (p :: rest) = clnFilter rest := by
            unfold clnFilter
            rw [List.filterMap_cons, hv]
          rw [hcln]
      | bool b =>
          have hstep : cleanStep acc p = acc := by unfold cleanStep; rw [hv]
          rw [hstep, ih acc hn'.2 (fun q hq => hdisj q (List.mem_cons_of_mem p hq))]
          have hcln : clnFilter (p :: rest) = clnFilter rest := by
            unfold clnFilter
            rw [List.filterMap_cons, hv]
          rw [hcln]
      | int n =>
          have hstep : cleanStep acc p = acc := by unfold cleanStep; rw [hv]
          rw [hstep, ih acc hn'.2 (fun q hq => hdisj q (List.mem_cons_of_mem p hq))]
          have hcln : clnFilter (p :: rest) = clnFilter rest := by
            unfold clnFilter
            rw [List.filterMap_cons, hv]
          rw [hcln]
      | str s =>
          have hstep : cleanStep acc p = acc := by unfold cleanStep; rw [hv]
          rw [hstep, ih acc hn'.2 (fun q hq => hdisj q (List.mem_cons_of_mem p hq))]
          have hcln : clnFilter (p :: rest) = clnFilter rest := by
            unfold clnFilter
            rw [List.filterMap_cons, hv]
          rw [hcln]
      | list xs =>
          have hstep : cleanStep acc p = acc := by unfold cleanStep; rw [hv]
          rw [hstep, ih acc hn'.2 (fun q hq => hdisj q (List.mem_cons_of_mem p hq))]
          have hcln : clnFilter (p :: rest) = clnFilter rest := by
            unfold clnFilter
            rw [List.filterMap_cons, hv]
          rw [hcln]

theorem cleaned_eq_clnFilter (fields : List (String × PyVal)) (hn : NodupKeys fields) :
    cleanedProfiles fields = clnFilter fields := by
  unfold cleanedProfiles
  rw [cleaned_eq_clnFilter_aux fields [] hn (fun p _ => rfl)]
  rfl

theorem alookup_eq_none {α : Type} :
    ∀ (l : List (String × α)) (k : String),
      l.any (fun p => p.1 == k) = false → alookup l k = Option.none := by
  intro l
  induction l with
  | nil => intro k _; rfl
  | cons p rest ih =>
      intro k h
      rw [List.any_cons] at h
      have h1 : (p.1 == k) = false := by
        cases hb : (p.1 == k) with
        | true => rw [hb] at h; simp at h
        | false => rfl
      have h2 : rest.any (fun p => p.1 == k) = false := by
        cases hb : rest.any (fun p => p.1 == k) with
        | true => rw [hb] at h; simp at h
        | false => rfl
      rw [alookup_cons, if_neg (by simp [h1]), ih k h2]

theorem anyKey_clnFilter :
    ∀ (fields : List (String × PyVal)) (k : String),
      fields.any (fun p => p.1 == k) = false →
      (clnFilter fields).any (fun p => p.1 == k) = false := by
  intro fields
  induction fields with
  | nil => intro k _; rfl
  | cons p rest ih =>
      intro k h
      rw [List.any_cons] at h
      have h1 : (p.1 == k) = false := by
        cases hb : (p.1 == k) with
        | true => rw [hb] at h; simp at h
        | false => rfl
      have h2 : rest.any (fun p => p.1 == k) = false := by
        cases hb : rest.any (fun p => p.1 == k) with
        | true => rw [hb] at h; simp at h
        | false => rfl
      unfold clnFilter
      rw [List.filterMap_cons]
      cases hv : p.2 with
      | dict rawp =>
          rw [List.any_cons]
          have := ih k h2
          unfold clnFilter at this
          rw [this, h1]
          rfl
      | none => exact ih k h2
      | bool b => exact ih k h2
      | int n => exact ih k h2
      | str s => exact ih k h2
      | list xs => exact ih k h2

theorem alookup_clnFilter :
    ∀ (fields : List (String × PyVal)) (k : String), NodupKeys fields →
      alookup (clnFilter fields) k
        = (match alookup fields k with
           | Option.some (PyVal.dict rawp) => Option.some (normalize_profile rawp)
           | _ => Option.none) := by
  intro fields
  induction fields with
  | nil => intro k _; rfl
  | cons p rest ih =>
      intro k hn
      have hn' : p.1 ∉ rest.map Prod.fst ∧ NodupKeys rest := by
        unfold NodupKeys at hn
        rw [List.map_cons, List.nodup_cons] at hn
        exact hn
      unfold clnFilter
      rw [List.filterMap_cons, alookup_cons]
      by_cases hpk : (p.1 == k) = true
      · rw [if_pos hpk]
        have hpe : p.1 = k := by simpa using hpk
        cases hv : p.2 with
        | dict rawp =>
            rw [alookup_cons]
            simp only []
            rw [if_pos hpk]
        | none =>
            have hnone : rest.any (fun q => q.1 == k) = false := by
              cases hb : rest.any (fun q => q.1 == k) with
              | true =>
                  exfalso
                  obtain ⟨x, hx, hxk⟩ := List.any_eq_true.mp hb
                  apply hn'.1
                  have hxe : x.1 = k := by simpa using hxk
                  rw [hpe, ← hxe]
                  exact List.mem_map_of_mem Prod.fst hx
              | false => rfl
            have := alookup_eq_none (clnFilter rest) k (anyKey_clnFilter rest k hnone)
            unfold clnFilter at this
            rw [this]
        | bool b =>
            have hnone : rest.any (fun q => q.1 == k) = false := by
              cases hb : rest.any (fun q => q.1 == k) with
              | true =>
                  exfalso
                  obtain ⟨x, hx, hxk⟩ := List.any_eq_true.mp hb
                  apply hn'.1
                  have hxe : x.1 = k := by simpa using hxk
                  rw [hpe, ← hxe]
                  exact List.mem_map_of_mem Prod.fst hx
              | false => rfl
            have := alookup_eq_none (clnFilter rest) k (anyKey_clnFilter rest k hnone)
            unfold clnFilter at this
            rw [this]
        | int n =>
            have hnone : rest.any (fun q => q.1 == k) = false := by
              cases hb : rest.any (fun q => q.1 == k) with
              | true =>
                  exfalso
                  obtain ⟨x, hx, hxk⟩ := List.any_eq_true.mp hb
                  apply hn'.1
                  have hxe : x.1 = k := by simpa using hxk
                  rw [hpe, ← hxe]
                  exact List.mem_map_of_mem Prod.fst hx
              | false => rfl
            have := alookup_eq_none (clnFilter rest) k (anyKey_clnFilter rest k hnone)
            unfold clnFilter at this
            rw [this]
        | str s =>
            have hnone : rest.any (fun q => q.1 == k) = false := by
              cases hb : rest.any (fun q => q.1 == k) with
              | true =>
                  exfalso
                  obtain ⟨x, hx, hxk⟩ := List.any_eq_true.mp hb
                  apply hn'.1
                  have hxe : x.1 = k := by simpa using hxk
                  rw [hpe, ← hxe]
                  exact List.mem_map_of_mem Prod.fst hx
              | false => rfl
            have := alookup_eq_none (clnFilter rest) k (anyKey_clnFilter rest k hnone)
            unfold clnFilter at this
            rw [this]
        | list xs =>
            have hnone : rest.any (fun q => q.1 == k) = false := by
              cases hb : rest.any (fun q => q.1 == k) with
              | true =>
                  exfalso
                  obtain ⟨x, hx, hxk⟩ := List.any_eq_true.mp hb
                  apply hn'.1
                  have hxe : x.1 = k := by simpa using hxk
                  rw [hpe, ← hxe]
                  exact List.mem_map_of_mem Prod.fst hx
              | false => rfl
            have := alookup_eq_none (clnFilter rest) k (anyKey_clnFilter rest k hnone)
            unfold clnFilter at this
            rw [this]
      · rw [if_neg hpk]
        cases hv : p.2 with
        | dict rawp =>
            rw [alookup_cons]
            simp only []
            rw [if_neg hpk]
            have := ih k hn'.2
            unfold clnFilter at this
            rw [this]
        | none =>
            have := ih k hn'.2
            unfold clnFilter at this
            rw [this]
        | bool b =>
            have := ih k hn'.2
            unfold clnFilter at this
            rw [this]
        | int n =>
            have := ih k hn'.2
            unfold clnFilter at this
            rw [this]
        | str s =>
            have := ih k hn'.2
            unfold clnFilter at this
            rw [this]
        | list xs =>
            have := ih k hn'.2
            unfold clnFilter at this
            rw [this]

theorem alookup_map_values {α β : Type} (g : α → β) :
    ∀ (l : List (String × α)) (k : String),
      alookup (l.map (fun p => (p.1, g p.2))) k = (alookup l k).map g := by
  intro l
  induction l with
  | nil => intro k; rfl
  | cons p rest ih =>
      intro k
      rw [List.map_cons, alookup_cons, alookup_cons]
      by_cases hpk : (p.1 == k) = true
      · rw [if_pos hpk, if_pos hpk]
        rfl
      · rw [if_neg hpk, if_neg hpk, ih]

theorem normEntry_key (raw : List (String × PyVal)) (kv : String × PyVal) :
    (normEntry raw kv).1 = kv.1 := by
  obtain ⟨k, dv⟩ := kv
  unfold normEntry
  simp only []
  cases halk : alookup raw k with
  | none => rfl
  | some v => rfl

theorem normalize_profile_keys (raw : List (String × PyVal)) :
    (normalize_profile raw).map Prod.fst = default_profile_values.map Prod.fst := by
  unfold normalize_profile
  rw [List.map_map]
  exact List.map_congr_left (fun kv _ => normEntry_key raw kv)

theorem default_keys_nodup : NodupKeys default_profile_values := by
  unfold NodupKeys
  decide

theorem default_shapes :
    default_profile_values.all (fun kv => defaultShape kv.2) = true := by decide

theorem nodupKeys_normalize (raw : List (String × PyVal)) :
    NodupKeys (normalize_profile raw) := by
  unfold NodupKeys
  rw [normalize_profile_keys]
  exact default_keys_nodup

theorem normalize_congr (r1 r2 : List (String × PyVal))
    (h : ∀ k, alookup r1 k = alookup r2 k) :
    normalize_profile r1 = normalize_profile r2 := by
  unfold normalize_profile
  apply List.map_congr_left
  intro kv _
  unfold normEntry
  rw [h kv.1]

theorem alookup_map_normEntry (raw : List (String × PyVal)) :
    ∀ (l : List (String × PyVal)), NodupKeys l → ∀ kv ∈ l,
      alookup (l.map (normEntry raw)) kv.1 = Option.some (normEntry raw kv).2 := by
  intro l
  induction l with
  | nil => intro _ kv hkv; cases hkv
  | cons q rest ih =>
      intro hn kv hkv
      have hn' : q.1 ∉ rest.map Prod.fst ∧ NodupKeys rest := by
        unfold NodupKeys at hn
        rw [List.map_cons, List.nodup_cons] at hn
        exact hn
      rw [List.map_cons, alookup_cons]
      rcases List.mem_cons.mp hkv with h1 | h2
      · have hcond : ((normEntry raw q).1 == kv.1) = true := by
          rw [normEntry_key, h1]
          simp
        rw [if_pos hcond, h1]
      · have hqk : (q.1 == kv.1) = false := by
          cases hb : (q.1 == kv.1) with
          | true =>
              exfalso
              apply hn'.1
              have : q.1 = kv.1 := by simpa using hb
              rw [this]
              exact List.mem_map_of_mem Prod.fst h2
          | false => rfl
        have hcond : ((normEntry raw q).1 == kv.1) = false := by
          rw [normEntry_key]
          exact hqk
        rw [if_neg (by simp [hcond]), ih hn'.2 kv h2]

theorem normValue_self (dv : PyVal) (hshape : defaultShape dv = true) :
    normValue dv dv = dv := by
  cases dv with
  | bool b => rfl
  | int n =>
      have hn : 0 ≤ n := by simpa [defaultShape] using hshape
      unfold normValue
      simp only [pyInt]
      rw [max_eq_right hn]
  | none => simp [defaultShape] at hshape
  | str s => simp [defaultShape] at hshape
  | list xs => simp [defaultShape] at hshape
  | dict g => simp [defaultShape] at hshape

theorem normValue_idem (dv v : PyVal) (hshape : defaultShape dv = true) :
    normValue dv (normValue dv v) = normValue dv v := by
  cases dv with
  | bool b => rfl
  | int n =>
      have hn : 0 ≤ n := by simpa [defaultShape] using hshape
      unfold normValue
      simp only []
      cases hpi : pyInt v with
      | some m =>
          simp only [pyInt]
          rw [max_eq_right (le_max_left 0 m)]
      | none =>
          simp only [pyInt]
          rw [max_eq_right hn]
  | none => simp [defaultShape] at hshape
  | str s => simp [defaultShape] at hshape
  | list xs => simp [defaultShape] at hshape
  | dict g => simp [defaultShape] at hshape

theorem normEntry_idem (V : List (String × PyVal)) (kv : String × PyVal)
    (hkv : kv ∈ default_profile_values) :
    normEntry (normalize_profile V) kv = normEntry V kv := by
  have hshape : defaultShape kv.2 = true := by
    have hall := default_shapes
    rw [List.all_eq_true] at hall
    exact hall kv hkv
  have hlk : alookup (normalize_profile V) kv.1 = Option.some (normEntry V kv).2 := by
    unfold normalize_profile
    exact alookup_map_normEntry V default_profile_values default_keys_nodup kv hkv
  conv_lhs => unfold normEntry
  rw [hlk]
  simp only []
  cases halk : alookup V kv.1 with
  | none =>
      have h2 : (normEntry V kv).2 = kv.2 := by
        unfold normEntry
        rw [halk]
      have h3 : normEntry V kv = kv := by
        unfold normEntry
        rw [halk]
      rw [h2, h3, normValue_self kv.2 hshape]
  | some v =>
      have h2 : (normEntry V kv).2 = normValue kv.2 v := by
        unfold normEntry
        rw [halk]
      have h3 : normEntry V kv = (kv.1, normValue kv.2 v) := by
        unfold normEntry
        rw [halk]
      rw [h2, h3, normValue_idem kv.2 v hshape]

theorem normalize_profile_idem (V : List (String × PyVal)) :
    normalize_profile (normalize_profile V) = normalize_profile V := by
  calc normalize_profile (normalize_profile V)
      = default_profile_values.map (normEntry (normalize_profile V)) := rfl
    _ = default_profile_values.map (normEntry V) :=
        List.map_congr_left (fun kv hkv => normEntry_idem V kv hkv)
    _ = normalize_profile V := rfl

theorem nodupKeys_fold_cleanStep :
    ∀ (fields : List (String × PyVal)) (acc : List (String × Profile)),
      NodupKeys acc → NodupKeys (fields.foldl cleanStep acc) := by
  intro fields
  induction fields with
  | nil => intro acc h; exact h
  | cons p rest ih =>
      intro acc h
      rw [List.foldl_cons]
      apply ih
      unfold cleanStep
      cases hv : p.2 with
      | dict rawp => exact nodupKeys_assocSet acc p.1 (normalize_profile rawp) h
      | none => exact h
      | bool b => exact h
      | int n => exact h
      | str s => exact h
      | list xs => exact h

theorem nodupKeys_cleanedProfiles (fields : List (String × PyVal)) :
    NodupKeys (cleanedProfiles fields) :=
  nodupKeys_fold_cleanStep fields [] (by simp [NodupKeys])

theorem nodupKeys_load (d : Disk) :
    ∀ d1 data, load_all d = (d1, Except.ok data) → NodupKeys data.profiles := by
  intro d1 data h
  cases d with
  | absent =>
      simp only [load_all] at h
      cases h
      simp [NodupKeys]
  | invalid => simp only [load_all] at h; cases h
  | stored raw =>
      simp only [load_all] at h
      cases h
      exact nodupKeys_cleanedProfiles (profilesFieldOf raw)

theorem upsert_roundtrip_aux :
    ∀ (name : String) (V : List (String × PyVal)) (d d1 : Disk) (data : Doc),
      (pyStrip name == "") = false →
      load_all d = (d1, Except.ok data) →
      (resultDoc (load_all (upsert_profile name V d).1)).map
          (fun doc2 => alookup doc2.profiles name)
        = Option.some (Option.some (normalize_profile V)) := by
  intro name V d d1 data hname hl
  have hup : upsert_profile name V d
      = (save_all ⟨name, assocSet data.profiles name (normalize_profile V)⟩,
         Except.ok ⟨name, assocSet data.profiles name (normalize_profile V)⟩) := by
    unfold upsert_profile
    rw [hl]
    simp only [afterLoad]
    rw [if_neg (by simp [hname])]
  rw [hup]
  have hres : resultDoc (load_all ((save_all
        ⟨name, assocSet data.profiles name (normalize_profile V)⟩,
        (Except.ok (⟨name, assocSet data.profiles name (normalize_profile V)⟩ : Doc)
          : Except String Doc)).1))
      = Option.some (load_norm (docToJson
          ⟨name, assocSet data.profiles name (normalize_profile V)⟩)) := rfl
  rw [hres, Option.map_some']
  have hpf : (load_norm (docToJson
        ⟨name, assocSet data.profiles name (normalize_profile V)⟩)).profiles
      = cleanedProfiles (sortByKey ((assocSet data.profiles name
          (normalize_profile V)).map (fun p => (p.1, PyVal.dict (sortByKey p.2))))) := rfl
  rw [hpf]
  have hnd_data : NodupKeys data.profiles := nodupKeys_load d d1 data hl
  have hnd_prof : NodupKeys (assocSet data.profiles name (normalize_profile V)) :=
    nodupKeys_assocSet data.profiles name (normalize_profile V) hnd_data
  have hnd_map : NodupKeys ((assocSet data.profiles name (normalize_profile V)).map
      (fun p => (p.1, PyVal.dict (sortByKey p.2)))) := by
    unfold NodupKeys
    rw [List.map_map]
    have hcomp : (Prod.fst ∘ fun p : String × Profile =>
        (p.1, PyVal.dict (sortByKey p.2))) = Prod.fst := rfl
    rw [hcomp]
    exact hnd_prof
  have hperm := sortByKey_perm ((assocSet data.profiles name (normalize_profile V)).map
      (fun p => (p.1, PyVal.dict (sortByKey p.2))))
  have hnd_sorted : NodupKeys (sortByKey ((assocSet data.profiles name
      (normalize_profile V)).map (fun p => (p.1, PyVal.dict (sortByKey p.2))))) :=
    nodupKeys_of_perm hperm.symm hnd_map
  rw [cleaned_eq_clnFilter _ hnd_sorted]
  rw [alookup_clnFilter _ name hnd_sorted]
  rw [alookup_perm hperm hnd_sorted name]
  rw [alookup_map_values (fun prof => PyVal.dict (sortByKey prof))
    (assocSet data.profiles name (normalize_profile V)) name]
  rw [alookup_assocSet_self data.profiles name (normalize_profile V)]
  simp only [Option.map_some']
  have hcongr : normalize_profile (sortByKey (normalize_profile V))
      = normalize_profile (normalize_profile V) :=
    normalize_congr _ _
      (fun k => alookup_perm (sortByKey_perm (normalize_profile V))
        (nodupKeys_of_perm (sortByKey_perm (normalize_profile V)).symm
          (nodupKeys_normalize V)) k)
  rw [hcongr, normalize_profile_idem]

/-- C3 (amended): `normalize` is idempotent, and for every profile name
that is non-empty after stripping whitespace, `upsert_profile(name, V)`
followed by `load_all()` yields a stored profile under `name` equal to
`normalize(V)` (whitespace-only names — which are non-empty strings —
are rejected by the upsert instead). -/
theorem normalize_idem_and_upsert_roundtrip :
    (∀ V, normalize_profile (normalize_profile V) = normalize_profile V)
      ∧ (∀ (name : String) (V : List (String × PyVal)) (d d1 : Disk) (data : Doc),
          (pyStrip name == "") = false →
          load_all d = (d1, Except.ok data) →
          (resultDoc (load_all (upsert_profile name V d).1)).map
              (fun doc2 => alookup doc2.profiles name)
            = Option.some (Option.some (normalize_profile V))) :=
  ⟨normalize_profile_idem, upsert_roundtrip_aux⟩

theorem normalize_idem_and_upsert_roundtrip_witness :
    (pyStrip "A" == "") = false
      ∧ load_all Disk.absent
          = (Disk.stored (docToJson ⟨"", []⟩), Except.ok (⟨"", []⟩ : Doc))
      ∧ (resultDoc (load_all
            (upsert_profile "A" [("tctl_temp", PyVal.int 80)] Disk.absent).1)).map
          (fun doc2 => alookup doc2.profiles "A")
        = Option.some (Option.some (normalize_profile [("tctl_temp", PyVal.int 80)])) :=
  ⟨rfl, rfl,
   normalize_idem_and_upsert_roundtrip.2 "A" [("tctl_temp", PyVal.int 80)]
     Disk.absent (Disk.stored (docToJson ⟨"", []⟩)) ⟨"", []⟩ rfl rfl⟩

/-- C3 (counterexample): the name `" "` is non-empty, yet the upsert
round trip stores nothing under it — the upsert raises on
whitespace-only names. -/
theorem roundtrip_fails_on_whitespace_name :
    (" " : String) ≠ ""
      ∧ (resultDoc (load_all (upsert_profile " " [] Disk.absent).1)).map
          (fun doc2 => alookup doc2.profiles " ")
        = Option.some Option.none :=
  ⟨by decide, rfl⟩

theorem not_eq_true_of {b : Bool} (h : (!b) = true) : b = false := by
  cases b with
  | false => rfl
  | true => simp at h

theorem beq_symm_false {a b : String} (h : (a == b) = false) : (b == a) = false := by
  cases hb : (b == a) with
  | false => rfl
  | true =>
      exfalso
      have hba : b = a := by simpa using hb
      rw [hba] at h
      simp at h

theorem append_enabled_ne (s : String) : ((s ++ "_enabled") == s) = false := by
  cases hb : ((s ++ "_enabled") == s) with
  | false => rfl
  | true =>
      exfalso
      have he : s ++ "_enabled" = s := by simpa using hb
      have hlen := congrArg String.length he
      rw [String.length_append] at hlen
      have h8 : ("_enabled" : String).length = 8 := rfl
      rw [h8] at hlen
      omega

theorem applySpec_other (lines : List String) (values : List (String × PyVal))
    (spec : OptionSpec) (x : String)
    (hk : (spec.key == x) = false) (hk2 : ((spec.key ++ "_enabled") == x) = false) :
    alookup (applySpec lines values spec) x = alookup values x := by
  unfold applySpec
  cases hscan : scanSpec spec lines with
  | none => rfl
  | some v =>
      simp only []
      rw [alookup_assocSet_ne _ _ _ _ hk2, alookup_assocSet_ne _ _ _ _ hk]

theorem applySpec_self (lines : List String) (values : List (String × PyVal))
    (spec : OptionSpec) (v : Int) (hscan : scanSpec spec lines = Option.some v) :
    alookup (applySpec lines values spec) spec.key
        = Option.some (PyVal.int (max 0 (if spec.ui_scale > 1
            && decide (v ≤ spec.maximum / spec.ui_scale) then v * spec.ui_scale else v)))
      ∧ alookup (applySpec lines values spec) (spec.key ++ "_enabled")
        = Option.some (PyVal.bool true) := by
  unfold applySpec
  rw [hscan]
  simp only []
  constructor
  · rw [alookup_assocSet_ne _ _ _ _ (append_enabled_ne spec.key)]
    exact alookup_assocSet_self _ _ _
  · exact alookup_assocSet_self _ _ _

theorem lookup_fold_preserve (lines : List String) :
    ∀ (l : List OptionSpec) (values : List (String × PyVal)) (x : String),
      (∀ s ∈ l, (s.key == x) = false ∧ ((s.key ++ "_enabled") == x) = false) →
      alookup (l.foldl (applySpec lines) values) x = alookup values x := by
  intro l
  induction l with
  | nil => intro values x _; rfl
  | cons s rest ih =>
      intro values x h
      rw [List.foldl_cons]
      rw [ih (applySpec lines values s) x (fun t ht => h t (List.mem_cons_of_mem s ht))]
      exact applySpec_other lines values s x (h s (List.mem_cons_self s rest)).1
        (h s (List.mem_cons_self s rest)).2

theorem lookup_fold_mem (lines : List String) :
    ∀ (l : List OptionSpec) (values : List (String × PyVal)) (spec : OptionSpec) (v : Int),
      spec ∈ l → specsOk l = true → scanSpec spec lines = Option.some v →
      alookup (l.foldl (applySpec lines) values) spec.key
          = Option.some (PyVal.int (max 0 (if spec.ui_scale > 1
              && decide (v ≤ spec.maximum / spec.ui_scale) then v * spec.ui_scale else v)))
        ∧ alookup (l.foldl (applySpec lines) values) (spec.key ++ "_enabled")
          = Option.some (PyVal.bool true) := by
  intro l
  induction l with
  | nil => intro values spec v hmem _ _; cases hmem
  | cons s rest ih =>
      intro values spec v hmem hok hscan
      unfold specsOk at hok
      rw [Bool.and_eq_true] at hok
      rw [List.foldl_cons]
      rcases List.mem_cons.mp hmem with h1 | h2
      · have hdisj : ∀ t ∈ rest,
            (t.key == spec.key) = false ∧ ((t.key ++ "_enabled") == spec.key) = false := by
          intro t ht
          have hall := List.all_eq_true.mp hok.1 t ht
          unfold specKeysDisjoint at hall
          rw [Bool.and_eq_true, Bool.and_eq_true, Bool.and_eq_true] at hall
          rw [h1]
          constructor
          · exact beq_symm_false (not_eq_true_of hall.1.1.1)
          · exact beq_symm_false (not_eq_true_of hall.1.1.2)
        have hdisj2 : ∀ t ∈ rest,
            (t.key == spec.key ++ "_enabled") = false
              ∧ ((t.key ++ "_enabled") == spec.key ++ "_enabled") = false := by
          intro t ht
          have hall := List.all_eq_true.mp hok.1 t ht
          unfold specKeysDisjoint at hall
          rw [Bool.and_eq_true, Bool.and_eq_true, Bool.and_eq_true] at hall
          rw [h1]
          constructor
          · exact not_eq_true_of hall.1.2
          · exact beq_symm_false (not_eq_true_of hall.2)
        constructor
        · rw [lookup_fold_preserve lines rest (applySpec lines values s) spec.key hdisj]
          rw [h1] at hscan ⊢
          exact (applySpec_self lines values s v hscan).1
        · rw [lookup_fold_preserve lines rest (applySpec lines values s)
            (spec.key ++ "_enabled") hdisj2]
          rw [h1] at hscan ⊢
          exact (applySpec_self lines values s v hscan).2
      · exact ih (applySpec lines values s) spec v h2 hok.2 hscan

theorem numeric_specs_ok : specsOk NUMERIC_OPTIONS = true := by decide

/-- C5: for every catalog numeric option with display scale above one,
baseline reconstruction multiplies the first parsed integer `v` of the
first matching line by the scale exactly when `v` is at most
`maximum / ui_scale` (integer division), and stores the clamped
non-negative result marked enabled. -/
theorem baseline_scaling_guard :
    ∀ (output : String) (spec : OptionSpec) (v : Int),
      spec ∈ NUMERIC_OPTIONS → 1 < spec.ui_scale →
      scanSpec spec (splitLines output) = Option.some v →
      alookup (parse_profile_values_from_info output) spec.key
          = Option.some (PyVal.int (max 0 (if v ≤ spec.maximum / spec.ui_scale
              then v * spec.ui_scale else v)))
        ∧ alookup (parse_profile_values_from_info output) (spec.key ++ "_enabled")
          = Option.some (PyVal.bool true) := by
  intro output spec v hmem hscale hscan
  have h := lookup_fold_mem (splitLines output) NUMERIC_OPTIONS default_profile_values
    spec v hmem numeric_specs_ok hscan
  have hdec : decide (spec.ui_scale > 1) = true := decide_eq_true hscale
  have hexpr : (if spec.ui_scale > 1 && decide (v ≤ spec.maximum / spec.ui_scale)
        then v * spec.ui_scale else v)
      = (if v ≤ spec.maximum / spec.ui_scale then v * spec.ui_scale else v) := by
    by_cases hle : v ≤ spec.maximum / spec.ui_scale
    · rw [if_pos hle]
      rw [if_pos]
      rw [hdec]
      simpa using hle
    · rw [if_neg hle]
      rw [if_neg]
      rw [hdec]
      simpa using hle
  rw [hexpr] at h
  exact h

theorem baseline_scaling_guard_witness :
    ((⟨"stapm_limit", "--stapm-limit", "STAPM Limit", "Power", 0, 200000, 25000,
        "Sustained platform power limit in W.", 1000, " W"⟩ : OptionSpec)
      ∈ NUMERIC_OPTIONS)
    ∧ (1 : Int) < 1000
    ∧ scanSpec
        ⟨"stapm_limit", "--stapm-limit", "STAPM Limit", "Power", 0, 200000, 25000,
          "Sustained platform power limit in W.", 1000, " W"⟩
        (splitLines "STAPM LIMIT: 25") = Option.some 25
    ∧ alookup (parse_profile_values_from_info "STAPM LIMIT: 25") "stapm_limit"
        = Option.some (PyVal.int 25000)
    ∧ alookup (parse_profile_values_from_info "STAPM LIMIT: 25000") "stapm_limit"
        = Option.some (PyVal.int 25000) :=
  ⟨by decide, by decide, rfl,
   (baseline_scaling_guard "STAPM LIMIT: 25"
      ⟨"stapm_limit", "--stapm-limit", "STAPM Limit", "Power", 0, 200000, 25000,
        "Sustained platform power limit in W.", 1000, " W"⟩
      25 (by decide) (by decide) rfl).1,
   (baseline_scaling_guard "STAPM LIMIT: 25000"
      ⟨"stapm_limit", "--stapm-limit", "STAPM Limit", "Power", 0, 200000, 25000,
        "Sustained platform power limit in W.", 1000, " W"⟩
      25000 (by decide) (by decide) rfl).1⟩

theorem matchTok_sublist (t : Tok) (cs rest : List Char)
    (h : matchTok t cs = Option.some rest) : rest.Sublist cs := by
  cases t with
  | lit s =>
      have h' : (if s.toList.isPrefixOf cs then Option.some (cs.drop s.length)
          else Option.none) = Option.some rest := h
      by_cases hp : s.toList.isPrefixOf cs = true
      · rw [if_pos hp] at h'
        cases h'
        exact List.drop_sublist _ _
      · rw [if_neg hp] at h'
        cases h'
  | ws =>
      have h' : Option.some (cs.dropWhile isWS) = Option.some rest := h
      cases h'
      exact List.dropWhile_sublist _

theorem matchSeq_sublist :
    ∀ (ts : List Tok) (cs rest : List Char),
      matchSeq ts cs = Option.some rest → rest.Sublist cs := by
  intro ts
  induction ts with
  | nil =>
      intro cs rest h
      cases h
      exact List.Sublist.refl _
  | cons t ts ih =>
      intro cs rest h
      unfold matchSeq at h
      cases hm : matchTok t cs with
      | none => rw [hm] at h; cases h
      | some mid =>
          rw [hm] at h
          exact List.Sublist.trans (ih mid rest h) (matchTok_sublist t cs mid hm)

theorem matchAlts_sublist :
    ∀ (bs : List (List Tok)) (cs rest : List Char),
      matchAlts bs cs = Option.some rest → rest.Sublist cs := by
  intro bs
  induction bs with
  | nil => intro cs rest h; cases h
  | cons b bs ih =>
      intro cs rest h
      unfold matchAlts at h
      cases hm : matchSeq b cs with
      | some mid =>
          rw [hm] at h
          cases h
          exact matchSeq_sublist b cs rest hm
      | none =>
          rw [hm] at h
          exact ih cs rest h

theorem grabNum_some_digit :
    ∀ (cs : List Char) (g : List Char),
      grabNum cs = Option.some g → cs.any Char.isDigit = true := by
  intro cs
  induction cs with
  | nil => intro g h; cases h
  | cons c rest ih =>
      intro g h
      simp only [grabNum] at h
      by_cases hd : c.isDigit = true
      · rw [List.any_cons, hd]
        simp
      · rw [if_neg hd] at h
        by_cases hc : c = '-'
        · rw [if_pos hc] at h
          cases rest with
          | nil => simp at h
          | cons c2 r2 =>
              simp only [] at h
              by_cases hd2 : c2.isDigit = true
              · rw [List.any_cons, List.any_cons, hd2]
                simp
              · rw [if_neg hd2] at h
                rw [List.any_cons, ih g h]
                simp
        · rw [if_neg hc] at h
          rw [List.any_cons, ih g h]
          simp

theorem searchStep_some_digit (p : MetricPat) (cs : List Char) (g : List Char)
    (h : searchStep p cs = Option.some g) : cs.any Char.isDigit = true := by
  unfold searchStep at h
  cases hm : matchAlts p cs with
  | none =>
      rw [hm] at h
      cases h
  | some after =>
      rw [hm] at h
      have h' : grabNum (after.takeWhile (fun ch => ch != '\n')) = Option.some g := h
      have h1 := grabNum_some_digit _ g h'
      obtain ⟨x, hx, hxd⟩ := List.any_eq_true.mp h1
      have hx2 : x ∈ after := (List.takeWhile_sublist _).subset hx
      have hx3 : x ∈ cs := (matchAlts_sublist p cs after hm).subset hx2
      exact List.any_eq_true.mpr ⟨x, hx3, hxd⟩

theorem searchMetric_some_digit (p : MetricPat) :
    ∀ (cs : List Char) (g : List Char),
      searchMetric p cs = Option.some g → cs.any Char.isDigit = true := by
  intro cs
  induction cs with
  | nil => intro g h; cases h
  | cons c rest ih =>
      intro g h
      unfold searchMetric at h
      cases hs : searchStep p (c :: rest) with
      | some g2 => exact searchStep_some_digit p (c :: rest) g2 hs
      | none =>
          rw [hs] at h
          have h' : searchMetric p rest = Option.some g := h
          rw [List.any_cons, ih g h']
          simp

theorem firstMetricMatch_nodigit (text : List Char)
    (h : text.any Char.isDigit = false) :
    ∀ pats, firstMetricMatch pats text = Option.none := by
  intro pats
  induction pats with
  | nil => rfl
  | cons p ps ih =>
      unfold firstMetricMatch
      cases hs : searchMetric p text with
      | some g =>
          exfalso
          rw [searchMetric_some_digit p text g hs] at h
          cases h
      | none => exact ih

theorem toLower_isDigit_false (c : Char) (h : c.isDigit = false) :
    (Char.toLower c).isDigit = false := by
  show (if c.toNat ≥ 65 ∧ c.toNat ≤ 90 then Char.ofNat (c.toNat + 32) else c).isDigit
    = false
  by_cases hc : c.toNat ≥ 65 ∧ c.toNat ≤ 90
  · rw [if_pos hc]
    obtain ⟨h1, h2⟩ := hc
    generalize c.toNat = n at h1 h2
    interval_cases n <;> decide
  · rw [if_neg hc]
    exact h

/-- C9: telemetry snapshot extraction is total — it returns an entry
for all five metric keys on every input; each metric independently
resolves to the captured token of the first matching pattern in
priority order, defaulting to the "N/A" sentinel; and on input with no
recognizable metric text (no digits at all) every metric is the
sentinel. -/
theorem parse_info_output_spec :
    (∀ s : String, (parse_info_output s).map Prod.fst
        = ["stapm", "ppt_fast", "ppt_slow", "cpu_temp", "power_draw"])
      ∧ (∀ (s key : String) (pats : List MetricPat),
          (key, pats) ∈ INFO_PATTERNS →
          alookup (parse_info_output s) key
            = Option.some (match firstMetricMatch pats ((pyLower s).toList) with
                | Option.some g => String.mk g
                | Option.none => "N/A"))
      ∧ (∀ s : String, s.toList.any Char.isDigit = false →
          (parse_info_output s).map Prod.snd = ["N/A", "N/A", "N/A", "N/A", "N/A"]) := by
  refine ⟨fun s => rfl, ?_, ?_⟩
  · intro s key pats hmem
    simp only [INFO_PATTERNS, List.mem_cons, List.not_mem_nil, or_false] at hmem
    rcases hmem with h | h | h | h | h <;>
      (rw [Prod.mk.injEq] at h; rw [h.1, h.2]; rfl)
  · intro s h
    have hlow : ((pyLower s).toList.any Char.isDigit) = false := by
      show ((s.toList.map Char.toLower).any Char.isDigit) = false
      rw [List.any_map]
      cases hb : s.toList.any (Char.isDigit ∘ Char.toLower) with
      | false => rfl
      | true =>
          exfalso
          obtain ⟨x, hx, hxd⟩ := List.any_eq_true.mp hb
          have hxd0 : x.isDigit = false := by
            cases hcd : x.isDigit with
            | false => rfl
            | true =>
                have hany : s.toList.any Char.isDigit = true :=
                  List.any_eq_true.mpr ⟨x, hx, hcd⟩
                rw [hany] at h
                cases h
          have hlf := toLower_isDigit_false x hxd0
          have hxd' : (Char.toLower x).isDigit = true := hxd
          rw [hlf] at hxd'
          cases hxd'
    have hnone := firstMetricMatch_nodigit ((pyLower s).toList) hlow
    show ((INFO_PATTERNS.map
        (fun kp => (kp.1,
          match firstMetricMatch kp.2 ((pyLower s).toList) with
          | Option.some g => String.mk g
          | Option.none => "N/A"))).map Prod.snd) = _
    simp only [INFO_PATTERNS, List.map_cons, List.map_nil, hnone]

theorem parse_info_output_spec_witness :
    alookup (parse_info_output "no metrics") "stapm" = Option.some "N/A"
      ∧ (parse_info_output "just words").map Prod.snd
          = ["N/A", "N/A", "N/A", "N/A", "N/A"] :=
  ⟨(parse_info_output_spec.2.1 "no metrics" "stapm" [[[Tok.lit "stapm"]]]
      (by decide)).trans rfl,
   parse_info_output_spec.2.2 "just words" (by decide)⟩
